import Mathlib

/-!
# Verification of the yamltypes/yamlconfig validator

A shallow embedding of `yamlconfig/yamlconfig.py` (schema validator,
customization engine, spec discovery, import loop) and of the
duplicate-checking mapping construction of `yamltypes/yaml.py`,
with theorems settling the specification claims.

The source is Python 2 (`xrange`, `iteritems`, `basestring`), so Python 2
semantics are modelled where they differ from Python 3 (e.g. `bool` being an
`int` subclass holds in both; `list` has no `clear()` in Python 2).

Modelling conventions:
* YAML data trees are `Val`; mapping keys are modelled as strings (the schema
  addresses fields by string names, and no claim involves non-string keys).
* Mappings are association lists in iteration order; the loader rejects
  duplicate keys, so data maps have unique keys.
* In-place mutation (default injection) is modelled by returning the updated
  value.
* Exceptions are `Except`: `YamlError(path, value, message)` keeps its three
  constructor arguments, while host-level Python errors (`TypeError`,
  `AttributeError`, `KeyError`, ...) that are not `YamlError`s are collapsed
  into one `pyError` constructor, since only their being raised (not their
  text) is observable in the claims.
* Floating point values are not modelled (no claim involves them); the
  `float` kind remains as a type token.
-/

/-- A YAML data node: `{mapping, sequence, scalar, null}`
(`dictns.Namespace` wraps plain mappings and is transparent here). -/
inductive Val where
  | vnull
  | vstr (s : String)
  | vint (n : Int)
  | vbool (b : Bool)
  | vlist (xs : List Val)
  | vmap (kvs : List (String × Val))

/-- The Python type tokens stored in `Type.type` / `Container.type`:
`str`, `int`, `bool`, `float`, the string `"anything"`, `list`, `dict`. -/
inductive PyType where
  | str | int | bool | float | anything | list | dict
deriving DecidableEq

/-- `isinstance(val, t)` for the tokens above.  In Python `bool` is a
subclass of `int`, so a boolean is an instance of `int`. -/
def isinst : Val → PyType → Bool
  | .vstr _, .str => true
  | .vint _, .int => true
  | .vbool _, .bool => true
  | .vbool _, .int => true
  | .vlist _, .list => true
  | .vmap _, .dict => true
  | _, _ => false

/-- `str(val)` for scalars.  For sequences and mappings Python renders the
items (via `repr`); everything the embedding consumes from that rendering is
that it starts with the opening bracket (so it can never case-insensitively
equal `"none"`), hence the container cases are abbreviated. -/
def pyStr : Val → String
  | .vnull => "None"
  | .vstr s => s
  | .vint n => toString n
  | .vbool b => if b then "True" else "False"
  | .vlist _ => "[...]"
  | .vmap _ => "{...}"

/-- `s.lower()`. -/
def strLower (s : String) : String := ⟨s.data.map Char.toLower⟩

/-- The integer value of a Python boolean (`True == 1`, `False == 0`). -/
def bool2int : Bool → Int
  | true => 1
  | false => 0

theorem bool2int_inj (a b : Bool) (h : bool2int a = bool2int b) : a = b := by
  cases a <;> cases b <;> simp_all [bool2int]

mutual
/-- Python `==` on data nodes.  Python compares `bool` and `int` numerically
(`True == 1`).  Mapping equality in Python ignores insertion order; the only
way two mappings can meet `==` here is through an `anything`-kind scalar whose
`values` list holds mappings, which no claim exercises, so mappings are
compared in iteration order. -/
def pyEq : Val → Val → Bool
  | .vnull, .vnull => true
  | .vstr a, .vstr b => a = b
  | .vint a, .vint b => a = b
  | .vbool a, .vbool b => a = b
  | .vint a, .vbool b => a = bool2int b
  | .vbool a, .vint b => bool2int a = b
  | .vlist a, .vlist b => pyEqList a b
  | .vmap a, .vmap b => pyEqMap a b
  | _, _ => false
def pyEqList : List Val → List Val → Bool
  | [], [] => true
  | a :: as1, b :: bs => pyEq a b && pyEqList as1 bs
  | _, _ => false
def pyEqMap : List (String × Val) → List (String × Val) → Bool
  | [], [] => true
  | (k1, v1) :: as1, (k2, v2) :: bs => k1 = k2 && pyEq v1 v2 && pyEqMap as1 bs
  | _, _ => false
end

/-- `x in xs` for a Python list (element-wise `==`). -/
def pyIn (x : Val) (xs : List Val) : Bool := xs.any (fun w => pyEq w x)

/-- Whether `hash(v)` succeeds: scalars are hashable, lists and dicts are
not. -/
def pyHashable : Val → Bool
  | .vnull | .vstr _ | .vint _ | .vbool _ => true
  | .vlist _ | .vmap _ => false

/-- `set(xs)`: `none` models the `TypeError` raised on an unhashable element.
Python inserts left to right and keeps the first representative of each
`==`-class; only the cardinality `len(set(xs))` is consumed downstream, so
the set is built by recursion on the tail (same cardinality). -/
def pySetOf : List Val → Option (List Val)
  | [] => some []
  | v :: vs =>
    if pyHashable v then
      match pySetOf vs with
      | none => none
      | some s => some (if s.any (fun w => pyEq w v) then s else v :: s)
    else none

/-- Association-list membership, Python's `k in d` for a dict. -/
def hasKey (k : String) : List (String × Val) → Bool
  | [] => false
  | (k2, _) :: rest => k = k2 || hasKey k rest

/-- Association-list lookup, Python's `d[k]` for a dict. -/
def lookupKey (k : String) : List (String × Val) → Option Val
  | [] => none
  | (k2, v) :: rest => if k = k2 then some v else lookupKey k rest

/-- `d[k] = v` on a plain dict: overwrite in place if present, else append. -/
def dictSetItem (m : List (String × Val)) (k : String) (v : Val) :
    List (String × Val) :=
  match m with
  | [] => [(k, v)]
  | (k2, v2) :: rest =>
    if k = k2 then (k, v) :: rest else (k2, v2) :: dictSetItem rest k v

/-- `del d[k]` on a dict. -/
def delKey (k : String) : List (String × Val) → List (String × Val)
  | [] => []
  | (k2, v) :: rest => if k = k2 then rest else (k2, v) :: delKey k rest

/-- Python 2 `repr` of a list of strings, e.g. `['field1', 'field2']` —
the rendering of `d.keys()` used in the error messages. -/
def pyReprStrList (xs : List String) : String :=
  "[" ++ String.intercalate ", " (xs.map (fun s => "\x27" ++ s ++ "\x27")) ++ "]"

/-- `", ".join(xs)`: `none` models the `TypeError` raised when an item is not
a string. -/
def pyJoin : List Val → Option String
  | [] => some ""
  | [.vstr s] => some s
  | .vstr s :: v :: rest =>
    match pyJoin (v :: rest) with
    | none => none
    | some r => some (s ++ ", " ++ r)
  | _ => none

/-- An exception escaping the validator: either a `YamlError(path, value,
message)` or a host-level Python error (`TypeError` etc.). -/
inductive VErr where
  | yamlError (path : String) (value : Val) (msg : String)
  | pyError (msg : String)

/-- Python 2 `str(t)` for a type object, as interpolated in the type-mismatch
message. -/
def pyTypeRepr : PyType → String
  | .str => "<type \x27str\x27>"
  | .int => "<type \x27int\x27>"
  | .bool => "<type \x27bool\x27>"
  | .float => "<type \x27float\x27>"
  | .anything => "anything"
  | .list => "<type \x27list\x27>"
  | .dict => "<type \x27dict\x27>"

/-- Python 2 `str(type(val))`. -/
def pyValTypeRepr : Val → String
  | .vnull => "<type \x27NoneType\x27>"
  | .vstr _ => "<type \x27str\x27>"
  | .vint _ => "<type \x27int\x27>"
  | .vbool _ => "<type \x27bool\x27>"
  | .vlist _ => "<type \x27list\x27>"
  | .vmap _ => "<type \x27dict\x27>"

/-- The resolved per-node attributes set by `createType` (lines 429-442):
`required`, `forbidden`, `maybenull` as resolved truth values (conditional
expression strings are evaluated at compile time), `default` as an optional
value (`None` meaning absent, mirroring the `is not None` test). -/
structure Attrs where
  required : Bool
  forbidden : Bool
  maybenull : Bool
  default : Option Val

/-- Attributes all unset (each `setattr(ret, k, None)`). -/
def noAttrs : Attrs := ⟨false, false, false, none⟩

/-- A compiled type: `Type` (scalar), `List`, `Set`, `Dict`, `Map` from
yamlconfig.py, with the `name` each instance stores and the resolved
attributes. -/
inductive Ty where
  | scalar (name : String) (kind : PyType) (values : List Val) (attrs : Attrs)
  | list (name : String) (spec : Ty) (attrs : Attrs)
  | set (name : String) (spec : Ty) (attrs : Attrs)
  | dict (name : String) (kids : List (String × Ty)) (attrs : Attrs)
  | map (name : String) (spec : Ty) (namesType : Option Ty) (attrs : Attrs)

/-- `Type.ensure_type` (lines 38-47), shared by scalars (`self.type` a kind
token) and containers (`self.type` being `list`/`dict`). -/
def ensure_type (maybenull : Bool) (pt : PyType) (path : String) (val : Val) :
    Except VErr Unit :=
  if maybenull && (match val with | .vnull => true | _ => false) then .ok ()
  else if pt = .anything then .ok ()
  else if strLower (pyStr val) = "none" then .ok ()
  else if !isinst val pt then
    .error (.yamlError path val
      ("should be of type \x27" ++ pyTypeRepr pt ++ "\x27, while it is \x27"
        ++ pyValTypeRepr val ++ "\x27."))
  else .ok ()

/-- `Type.ensure_values` (lines 49-52):  `if self.values and val not in
self.values: raise`.  Building the message joins the allowed values with
`", ".join`, which itself raises a `TypeError` when a value is not a
string. -/
def ensure_values (values : List Val) (path : String) (val : Val) :
    Except VErr Unit :=
  if !values.isEmpty && !pyIn val values then
    match pyJoin values with
    | none => .error (.pyError "sequence item: expected string")
    | some joined =>
      .error (.yamlError path val
        ("\x27" ++ pyStr val ++ "\x27 should be one of: " ++ joined))
  else .ok ()

/-- The element matcher table built from a `Dict`'s kids: each kid compiled
to its `match_spec` closure (`match_spec` only wraps the call in an
`AttributeError` re-raise that cannot fire for compiled types, so it is the
direct call). -/
abbrev Matcher := String → Val → Except VErr Val

/-- Lookup in a matcher table (Python `self.spec[k]` after `k in self.spec`). -/
def flook (k : String) : List (String × Matcher) → Option Matcher
  | [] => none
  | (k2, f) :: rest => if k = k2 then some f else flook k rest

/-- `List.iter_and_match` (lines 85-88): match every element at an
index-qualified sub-path `path[i]`, in order; elements are updated in place
(modelled by returning the new list). -/
def listIterF (f : Matcher) (path : String) (i : Nat) :
    List Val → Except VErr (List Val)
  | [] => .ok []
  | x :: xs =>
    match f (path ++ "[" ++ toString i ++ "]") x with
    | .error e => .error e
    | .ok y =>
      match listIterF f path (i + 1) xs with
      | .error e => .error e
      | .ok ys => .ok (y :: ys)

/-- The duplicate scan of `Set.match` (lines 100-105): pop from the front of a
copy, and fail on the first value that recurs in the remaining tail, naming
it.  `whole` is the (already element-matched) list cited in the error. -/
def setScan (path : String) (whole : List Val) : List Val → Option VErr
  | [] => none
  | v :: vs =>
    if vs.any (fun w => pyEq v w) then
      some (.yamlError path (.vlist whole)
        (pyStr v ++ " is included several times in a set"))
    else setScan path whole vs

/-- The uniqueness pass of `Set.match` (lines 99-105): evaluating
`len(val) != len(set(val))` builds `set(val)` (a `TypeError` on unhashable
elements); when the lengths differ the scan runs and raises.  (If the scan
found nothing the loop would simply end; that branch is kept even though the
scan always finds a duplicate when the lengths differ.) -/
def setUniq (path : String) (ys : List Val) : Except VErr Unit :=
  match pySetOf ys with
  | none => .error (.pyError "unhashable type")
  | some s =>
    if ys.length ≠ s.length then
      match setScan path ys ys with
      | some e => .error e
      | none => .ok ()
    else .ok ()

/-- The first (required / forbidden / default) pass of `Dict.iter_and_match`
(lines 113-121), over the declared kids in order, threading the data map
which grows as defaults are injected (`val[k] = s.default` appends, the key
being absent). -/
def dictPhase1 (path : String) (attrOf : Ty → Attrs) :
    List (String × Ty) → List (String × Val) → Except VErr (List (String × Val))
  | [], val => .ok val
  | (k, s) :: rest, val =>
    if (attrOf s).required && !hasKey k val then
      .error (.yamlError path (.vmap val)
        ("needs to define the option \x27" ++ k ++ "\x27, but only has: "
          ++ pyReprStrList (val.map Prod.fst)))
    else if (attrOf s).forbidden && hasKey k val then
      .error (.yamlError path (.vmap val) ("option " ++ k ++ " is forbidden"))
    else
      dictPhase1 path attrOf rest
        (match (attrOf s).default with
         | some d => if hasKey k val then val else val ++ [(k, d)]
         | none => val)

/-- The second pass of `Dict.iter_and_match` (lines 122-126): iterate the data
entries in order; an undeclared key fails citing the declared field names; a
declared one is matched at its dotted sub-path, updating the entry in place.
`done` holds the already-processed entries (the error message cites the whole
current mapping, `done ++ todo`). -/
def dictPhase2 (tbl : List (String × Matcher)) (path : String)
    (done : List (String × Val)) :
    List (String × Val) → Except VErr (List (String × Val))
  | [] => .ok done
  | (k, v) :: rest =>
    match flook k tbl with
    | none =>
      .error (.yamlError path (.vmap (done ++ (k, v) :: rest))
        ("Key \x27" ++ k ++ "\x27 not defined in spec file, should be one of: "
          ++ pyReprStrList (tbl.map Prod.fst)))
    | some f =>
      match f (path ++ "." ++ k) v with
      | .error e => .error e
      | .ok v2 => dictPhase2 tbl path (done ++ [(k, v2)]) rest

/-- The value loop of `Map.iter_and_match` (lines 147-148): every value is
matched against the one element spec at a key-qualified sub-path. -/
def mapIter (f : Matcher) (path : String) (done : List (String × Val)) :
    List (String × Val) → Except VErr (List (String × Val))
  | [] => .ok done
  | (k, v) :: rest =>
    match f (path ++ "." ++ k) v with
    | .error e => .error e
    | .ok v2 => mapIter f path (done ++ [(k, v2)]) rest

/-- The key check of `Map.iter_and_match` (lines 140-144): a synthetic
`Set(name_names, list, names_type)` with `maybenull = False` is matched
against `val.keys()` (a fresh list, so its element updates are discarded):
`Container.match` = `ensure_type` + the element pass, then the uniqueness
pass of `Set.match`. -/
def setMatchKeys (f : Matcher) (n : String) (keys : List Val) :
    Except VErr Unit :=
  match ensure_type false .list n (.vlist keys) with
  | .error e => .error e
  | .ok _ =>
    match listIterF f n 0 keys with
    | .error e => .error e
    | .ok ys => setUniq n ys

/-- Projection of the resolved attributes of a compiled node. -/
def tyAttrs : Ty → Attrs
  | .scalar _ _ _ a => a
  | .list _ _ a => a
  | .set _ _ a => a
  | .dict _ _ a => a
  | .map _ _ _ a => a

mutual
/-- `match` of a compiled type (`Type.match` lines 54-56, `Container.match`
lines 69-71, `Set.match` lines 97-105, `Dict.iter_and_match` lines 112-126,
`Map.iter_and_match` lines 139-148).  Returns the (possibly default-filled)
value.  A non-container value reaching a container's `iter_and_match` — only
possible through the `maybenull`/`"none"` escapes of `ensure_type` — makes
Python iterate or index the raw value (`len(None)`, `val.items()`, string
iteration); those host-level failures are collapsed to `pyError`.  The one
such case that does not raise in Python (a string whose text is `"none"`
iterated character-wise by a list spec) is likewise collapsed; no claim
reaches it. -/
def tyMatchF : Ty → String → Val → Except VErr Val
  | .scalar _ kind values attrs => fun path val =>
    match ensure_type attrs.maybenull kind path val with
    | .error e => .error e
    | .ok _ =>
      match ensure_values values path val with
      | .error e => .error e
      | .ok _ => .ok val
  | .list _ spec attrs => fun path val =>
    match ensure_type attrs.maybenull .list path val with
    | .error e => .error e
    | .ok _ =>
      match val with
      | .vlist xs =>
        match listIterF (tyMatchF spec) path 0 xs with
        | .error e => .error e
        | .ok ys => .ok (.vlist ys)
      | _ => .error (.pyError "object is not a sequence")
  | .set _ spec attrs => fun path val =>
    match ensure_type attrs.maybenull .list path val with
    | .error e => .error e
    | .ok _ =>
      match val with
      | .vlist xs =>
        match listIterF (tyMatchF spec) path 0 xs with
        | .error e => .error e
        | .ok ys =>
          match setUniq path ys with
          | .error e => .error e
          | .ok _ => .ok (.vlist ys)
      | _ => .error (.pyError "object is not a sequence")
  | .dict _ kids attrs => fun path val =>
    match ensure_type attrs.maybenull .dict path val with
    | .error e => .error e
    | .ok _ =>
      match val with
      | .vmap kvs =>
        match dictPhase1 path tyAttrs kids kvs with
        | .error e => .error e
        | .ok kvs1 =>
          match dictPhase2 (kidFs kids) path [] kvs1 with
          | .error e => .error e
          | .ok kvs2 => .ok (.vmap kvs2)
      | _ => .error (.pyError "object is not a mapping")
  | .map name spec (some nt) attrs => fun path val =>
    match ensure_type attrs.maybenull .dict path val with
    | .error e => .error e
    | .ok _ =>
      match val with
      | .vmap kvs =>
        match setMatchKeys (tyMatchF nt) (name ++ "_names")
            (kvs.map (fun p => Val.vstr p.1)) with
        | .error e => .error e
        | .ok _ =>
          match mapIter (tyMatchF spec) path [] kvs with
          | .error e => .error e
          | .ok kvs2 => .ok (.vmap kvs2)
      | _ => .error (.pyError "object has no attribute keys")
  | .map _name spec none attrs => fun path val =>
    match ensure_type attrs.maybenull .dict path val with
    | .error e => .error e
    | .ok _ =>
      match val with
      | .vnull => .error (.yamlError path .vnull "Invalid empty value !")
      | .vmap kvs =>
        match mapIter (tyMatchF spec) path [] kvs with
        | .error e => .error e
        | .ok kvs2 => .ok (.vmap kvs2)
      | _ => .error (.pyError "object has no attribute items")
/-- The kids of a `Dict`, each compiled to its matcher. -/
def kidFs : List (String × Ty) → List (String × Matcher)
  | [] => []
  | (k, t) :: rest => (k, fun p v => tyMatchF t p v) :: kidFs rest
end

/-- Sample schema: `{type: dict, kids: {field1: {type: string}}}`. -/
def sampleDict : Ty :=
  .dict "root" [("field1", .scalar "field1" .str [] noAttrs)] noAttrs

example : tyMatchF sampleDict "root" (.vmap [("field1", .vstr "OK")]) =
    .ok (.vmap [("field1", .vstr "OK")]) := rfl
example : tyMatchF sampleDict "root" (.vmap [("field2", .vstr "x")]) =
    .error (.yamlError "root" (.vmap [("field2", .vstr "x")])
      "Key \x27field2\x27 not defined in spec file, should be one of: [\x27field1\x27]") := rfl
example : tyMatchF (.set "s" (.scalar "e" .str [] noAttrs) noAttrs) "s"
      (.vlist [.vstr "a", .vstr "b", .vstr "a"]) =
    .error (.yamlError "s" (.vlist [.vstr "a", .vstr "b", .vstr "a"])
      "a is included several times in a set") := rfl

/-- Lookup among a `Dict`'s declared kids (`self.spec[k]`). -/
def lookupTy (k : String) : List (String × Ty) → Option Ty
  | [] => none
  | (k2, t) :: rest => if k = k2 then some t else lookupTy k rest

theorem kidFs_keys (kids : List (String × Ty)) :
    (kidFs kids).map Prod.fst = kids.map Prod.fst := by
  induction kids with
  | nil => rfl
  | cons p rest ih => obtain ⟨k, t⟩ := p; simp [kidFs, ih]

theorem flook_kidFs (k : String) (kids : List (String × Ty)) :
    flook k (kidFs kids) =
      (lookupTy k kids).map (fun t => fun p v => tyMatchF t p v) := by
  induction kids with
  | nil => rfl
  | cons p rest ih =>
    obtain ⟨k2, t⟩ := p
    simp only [kidFs, flook, lookupTy]
    by_cases h : k = k2
    · simp [h]
    · simp [h, ih]

theorem ensure_values_ok_iff (values : List Val) (path : String) (val : Val) :
    ensure_values values path val = .ok () ↔
      (values = [] ∨ pyIn val values = true) := by
  unfold ensure_values
  by_cases h : (!values.isEmpty && !pyIn val values) = true
  · rw [if_pos h]
    simp only [Bool.and_eq_true, Bool.not_eq_true'] at h
    obtain ⟨h1, h2⟩ := h
    cases hj : pyJoin values <;>
      simp [List.isEmpty_eq_false_iff_exists_mem] at h1 ⊢ <;>
      simp_all [List.isEmpty_iff]
  · rw [if_neg h]
    simp only [Bool.and_eq_true, Bool.not_eq_true', not_and_or] at h
    simp only [Bool.not_eq_false] at h
    rcases h with h | h
    · simp [List.isEmpty_iff.mp h]
    · simp [h]

theorem scalar_match_eq (n : String) (kind : PyType) (values : List Val)
    (attrs : Attrs) (path : String) (val : Val) :
    tyMatchF (.scalar n kind values attrs) path val =
      (match ensure_type attrs.maybenull kind path val with
       | .error e => .error e
       | .ok _ =>
         match ensure_values values path val with
         | .error e => .error e
         | .ok _ => .ok val) := by
  simp only [tyMatchF]

theorem ensure_type_null_ok (mnull : Bool) (kind : PyType) (path : String) :
    ensure_type mnull kind path .vnull = .ok () := by
  cases mnull <;> cases kind <;> rfl

theorem ensure_type_anything_ok (mnull : Bool) (path : String) (val : Val) :
    ensure_type mnull .anything path val = .ok () := by
  unfold ensure_type
  by_cases h : (mnull && (match val with | .vnull => true | _ => false)) = true
  · rw [if_pos h]
  · rw [if_neg h, if_pos rfl]

/-- C8: a null scalar value always passes `ensure_type` — even with
`maybenull` unset — because `str(None).lower()` is `"none"` and the escape
hatch at line 43 fires; consequently `Type.match` on a null value is decided
entirely by `ensure_values`, never by a type mismatch. -/
theorem c8_null_never_type_mismatch (name : String) (kind : PyType)
    (values : List Val) (attrs : Attrs) (path : String) :
    ensure_type attrs.maybenull kind path .vnull = .ok () ∧
    tyMatchF (.scalar name kind values attrs) path .vnull =
      (match ensure_values values path .vnull with
       | .error e => .error e
       | .ok _ => .ok .vnull) := by
  refine ⟨ensure_type_null_ok _ _ _, ?_⟩
  rw [scalar_match_eq, ensure_type_null_ok]

/-- C3 counterexample: a scalar with `maybenull` resolved to true and the
non-empty allowed set `["a"]` rejects a null value — `ensure_values` still
runs after the `maybenull` escape in `ensure_type`, and `None` is not among
the allowed values. -/
theorem c3_counterexample :
    tyMatchF (.scalar "s" .str [.vstr "a"] ⟨false, false, true, none⟩) "p"
        .vnull =
      .error (.yamlError "p" .vnull "\x27None\x27 should be one of: a") := rfl

/-- C3 as amended: with `maybenull` true a null value always passes the type
check (`ensure_type`), and the whole match passes exactly when the
allowed-values set is empty or contains the value; likewise an
`"anything"`-kind scalar passes the type check on any value, and its match
passes exactly when the allowed-values set is empty or contains the value. -/
theorem c3_maybenull_and_anything (name : String) (kind : PyType)
    (values : List Val) (attrs : Attrs) (path : String) (val : Val)
    (hmn : attrs.maybenull = true) :
    (ensure_type attrs.maybenull kind path .vnull = .ok () ∧
      (tyMatchF (.scalar name kind values attrs) path .vnull = .ok .vnull ↔
        (values = [] ∨ pyIn .vnull values = true))) ∧
    (ensure_type attrs.maybenull .anything path val = .ok () ∧
      (tyMatchF (.scalar name .anything values attrs) path val = .ok val ↔
        (values = [] ∨ pyIn val values = true))) := by
  have hnull := ensure_type_null_ok attrs.maybenull kind path
  have hany := ensure_type_anything_ok attrs.maybenull path val
  refine ⟨⟨hnull, ?_⟩, ⟨hany, ?_⟩⟩
  · rw [scalar_match_eq, hnull, ← ensure_values_ok_iff values path .vnull]
    cases h : ensure_values values path .vnull with
    | error e => simp [h]
    | ok u => cases u; simp [h]
  · rw [scalar_match_eq, hany, ← ensure_values_ok_iff values path val]
    cases h : ensure_values values path val with
    | error e => simp [h]
    | ok u => cases u; simp [h]

/-- Witness for the amended C3 at a concrete input: kind `string`,
`maybenull` true, allowed values `["fast", "slow"]`; null is rejected (not
among the allowed values) while `"fast"` passes an `anything` scalar. -/
theorem c3_maybenull_and_anything_witness :
    (⟨false, false, true, none⟩ : Attrs).maybenull = true ∧
    ¬(tyMatchF (.scalar "s" .str [.vstr "fast", .vstr "slow"]
        ⟨false, false, true, none⟩) "p" .vnull = .ok .vnull) := by
  refine ⟨rfl, ?_⟩
  have h := ((c3_maybenull_and_anything "s" .str [.vstr "fast", .vstr "slow"]
    ⟨false, false, true, none⟩ "p" (.vstr "fast") rfl).1).2
  intro hok
  rcases h.mp hok with h1 | h1
  · simp at h1
  · have hf : pyIn Val.vnull [Val.vstr "fast", Val.vstr "slow"] = false := rfl
    rw [hf] at h1
    exact Bool.noConfusion h1

/-- C1: in the second pass of `Dict.iter_and_match` (after the
required/forbidden/default pass), (a) any data entry whose key is not among
the declared kids makes validation fail; (b) when the first remaining entry
is undeclared the error names it and lists all declared field names,
`"Key 'k' not defined in spec file, should be one of: ['f1', ...]"`, citing
the whole current mapping; (c) a declared entry is instead recursed into at
its dotted sub-path `path.k`, its value updated in place. -/
theorem c1_dict_unknown_key (kids : List (String × Ty)) (path : String) :
    (∀ (done todo : List (String × Val)),
      (∃ p ∈ todo, lookupTy p.1 kids = none) →
      ∃ e, dictPhase2 (kidFs kids) path done todo = .error e) ∧
    (∀ (done : List (String × Val)) (k : String) (v : Val)
        (rest : List (String × Val)),
      lookupTy k kids = none →
      dictPhase2 (kidFs kids) path done ((k, v) :: rest) =
        .error (.yamlError path (.vmap (done ++ (k, v) :: rest))
          ("Key \x27" ++ k ++ "\x27 not defined in spec file, should be one of: "
            ++ pyReprStrList (kids.map Prod.fst)))) ∧
    (∀ (done : List (String × Val)) (k : String) (v : Val)
        (rest : List (String × Val)) (s : Ty),
      lookupTy k kids = some s →
      dictPhase2 (kidFs kids) path done ((k, v) :: rest) =
        match tyMatchF s (path ++ "." ++ k) v with
        | .error e => .error e
        | .ok v2 => dictPhase2 (kidFs kids) path (done ++ [(k, v2)]) rest) := by
  have hb : ∀ (done : List (String × Val)) (k : String) (v : Val)
      (rest : List (String × Val)),
      lookupTy k kids = none →
      dictPhase2 (kidFs kids) path done ((k, v) :: rest) =
        .error (.yamlError path (.vmap (done ++ (k, v) :: rest))
          ("Key \x27" ++ k ++ "\x27 not defined in spec file, should be one of: "
            ++ pyReprStrList (kids.map Prod.fst))) := by
    intro done k v rest hnone
    have hf : flook k (kidFs kids) = none := by
      rw [flook_kidFs, hnone]; rfl
    simp only [dictPhase2, hf, kidFs_keys]
  have hc : ∀ (done : List (String × Val)) (k : String) (v : Val)
      (rest : List (String × Val)) (s : Ty),
      lookupTy k kids = some s →
      dictPhase2 (kidFs kids) path done ((k, v) :: rest) =
        match tyMatchF s (path ++ "." ++ k) v with
        | .error e => .error e
        | .ok v2 => dictPhase2 (kidFs kids) path (done ++ [(k, v2)]) rest := by
    intro done k v rest s hsome
    have hf : flook k (kidFs kids) = some (fun p w => tyMatchF s p w) := by
      rw [flook_kidFs, hsome]; rfl
    simp only [dictPhase2, hf]
  refine ⟨?_, hb, hc⟩
  intro done todo
  induction todo generalizing done with
  | nil => intro h; obtain ⟨p, hp, _⟩ := h; cases hp
  | cons p rest ih =>
    obtain ⟨k, v⟩ := p
    intro h
    cases hl : lookupTy k kids with
    | none => exact ⟨_, hb done k v rest hl⟩
    | some s =>
      rw [hc done k v rest s hl]
      cases hm : tyMatchF s (path ++ "." ++ k) v with
      | error e => exact ⟨e, rfl⟩
      | ok v2 =>
        apply ih
        obtain ⟨q, hq, hqn⟩ := h
        rcases List.mem_cons.mp hq with hq2 | hq2
        · exfalso
          simp only [hq2] at hqn
          rw [hl] at hqn
          cases hqn
        · exact ⟨q, hq2, hqn⟩

/-- Witness for C1 at the spec's concrete scenario: schema kids
`{field1: string}`, data `{field2: "x"}` — the unknown key fails with the
exact message, while data `{field1: "OK"}` is recursed and passes. -/
theorem c1_dict_unknown_key_witness :
    (∃ e, dictPhase2 (kidFs [("field1", .scalar "field1" .str [] noAttrs)])
        "root" [] [("field2", .vstr "x")] = .error e) ∧
    dictPhase2 (kidFs [("field1", .scalar "field1" .str [] noAttrs)])
        "root" [] [("field2", .vstr "x")] =
      .error (.yamlError "root" (.vmap [("field2", .vstr "x")])
        "Key \x27field2\x27 not defined in spec file, should be one of: [\x27field1\x27]") ∧
    dictPhase2 (kidFs [("field1", .scalar "field1" .str [] noAttrs)])
        "root" [] [("field1", .vstr "OK")] =
      match tyMatchF (.scalar "field1" .str [] noAttrs) ("root" ++ "." ++ "field1")
          (.vstr "OK") with
      | .error e => .error e
      | .ok v2 =>
        dictPhase2 (kidFs [("field1", .scalar "field1" .str [] noAttrs)])
          "root" ([] ++ [("field1", v2)]) [] :=
  ⟨(c1_dict_unknown_key [("field1", .scalar "field1" .str [] noAttrs)] "root").1
      [] [("field2", .vstr "x")] ⟨("field2", .vstr "x"), by simp, rfl⟩,
    (c1_dict_unknown_key [("field1", .scalar "field1" .str [] noAttrs)] "root").2.1
      [] "field2" (.vstr "x") [] rfl,
    (c1_dict_unknown_key [("field1", .scalar "field1" .str [] noAttrs)] "root").2.2
      [] "field1" (.vstr "OK") [] (.scalar "field1" .str [] noAttrs) rfl⟩

/-!
## Duplicate-check loaders (`yamltypes/yaml.py`)

`DuplicateCheckLoader.construct_mapping` (lines 127-146) and the identical
body inherited by `OrderedMapAndDuplicateCheckLoader` (lines 188-198), which
only swaps `_getMap` from a plain dict to `_LastUpdatedOrderedDict`.  Keys
are modelled as strings (hashable, so the `hash(key)` probe at lines 135-139
cannot fire).  The plain dict of Python 2 does not expose insertion order;
as an association list both modes construct the same mapping here, which is
exactly the content of claim C9's "exactly as default mode does".
-/

/-- `_LastUpdatedOrderedDict.__setitem__` (lines 102-105): delete the key if
present, then append at the end (re-assignment moves the entry to the
end). -/
def luSetItem (m : List (String × Val)) (k : String) (v : Val) :
    List (String × Val) :=
  (if hasKey k m then delKey k m else m) ++ [(k, v)]

/-- `construct_mapping` of the ordered loader: fold over the key/value node
pairs; a key already in the mapping raises
`"found already in-use key (%s)"`, otherwise it is inserted with the
move-to-end `__setitem__`. -/
def construct_mapping_ordered_go (acc : List (String × Val)) :
    List (String × Val) → Except String (List (String × Val))
  | [] => .ok acc
  | (k, v) :: rest =>
    if hasKey k acc then .error ("found already in-use key (" ++ k ++ ")")
    else construct_mapping_ordered_go (luSetItem acc k v) rest

def construct_mapping_ordered (pairs : List (String × Val)) :
    Except String (List (String × Val)) :=
  construct_mapping_ordered_go [] pairs

/-- `construct_mapping` of the default loader: same body with plain-dict
assignment. -/
def construct_mapping_default_go (acc : List (String × Val)) :
    List (String × Val) → Except String (List (String × Val))
  | [] => .ok acc
  | (k, v) :: rest =>
    if hasKey k acc then .error ("found already in-use key (" ++ k ++ ")")
    else construct_mapping_default_go (dictSetItem acc k v) rest

def construct_mapping_default (pairs : List (String × Val)) :
    Except String (List (String × Val)) :=
  construct_mapping_default_go [] pairs

/-- The first key of `pairs` that repeats an earlier key, scanning left to
right (the key on which `construct_mapping` raises). -/
def firstDupKey (seen : List String) : List (String × Val) → Option String
  | [] => none
  | (k, _) :: rest =>
    if seen.contains k then some k else firstDupKey (seen ++ [k]) rest

theorem hasKey_iff_contains (k : String) (m : List (String × Val)) :
    hasKey k m = (m.map Prod.fst).contains k := by
  induction m with
  | nil => rfl
  | cons p rest ih =>
    obtain ⟨k2, v⟩ := p
    simp only [hasKey, ih, List.map_cons, List.contains_cons]
    by_cases h : k = k2 <;> simp [h, beq_iff_eq]

theorem luSetItem_fresh (m : List (String × Val)) (k : String) (v : Val)
    (h : hasKey k m = false) : luSetItem m k v = m ++ [(k, v)] := by
  unfold luSetItem
  rw [h]
  simp

theorem dictSetItem_fresh (m : List (String × Val)) (k : String) (v : Val)
    (h : hasKey k m = false) : dictSetItem m k v = m ++ [(k, v)] := by
  induction m with
  | nil => rfl
  | cons p rest ih =>
    obtain ⟨k2, v2⟩ := p
    simp only [hasKey, Bool.or_eq_false_iff] at h
    obtain ⟨h1, h2⟩ := h
    simp only [dictSetItem]
    rw [if_neg (by simpa using h1), ih h2]
    simp

theorem construct_go_eq (acc : List (String × Val))
    (pairs : List (String × Val)) :
    construct_mapping_ordered_go acc pairs =
        (match firstDupKey (acc.map Prod.fst) pairs with
         | some k => .error ("found already in-use key (" ++ k ++ ")")
         | none => .ok (acc ++ pairs)) ∧
      construct_mapping_default_go acc pairs =
        construct_mapping_ordered_go acc pairs := by
  induction pairs generalizing acc with
  | nil => simp [construct_mapping_ordered_go, construct_mapping_default_go,
      firstDupKey]
  | cons p rest ih =>
    obtain ⟨k, v⟩ := p
    simp only [construct_mapping_ordered_go, construct_mapping_default_go,
      firstDupKey]
    by_cases h : hasKey k acc = true
    · rw [if_pos h, if_pos h, if_pos (by rw [← hasKey_iff_contains]; exact h)]
      exact ⟨rfl, rfl⟩
    · have hf : hasKey k acc = false := by simpa using h
      rw [if_neg h, if_neg h,
        if_neg (by rw [← hasKey_iff_contains, hf]; simp)]
      rw [luSetItem_fresh acc k v hf, dictSetItem_fresh acc k v hf]
      have := ih (acc ++ [(k, v)])
      refine ⟨?_, this.2⟩
      rw [this.1]
      have hkeys : ((acc ++ [(k, v)]).map Prod.fst) = acc.map Prod.fst ++ [k] := by
        simp
      rw [hkeys]
      cases hd : firstDupKey (acc.map Prod.fst ++ [k]) rest with
      | none => simp
      | some k2 => rfl

/-- C9: the order-preserving loader's `construct_mapping` rejects a document
with a duplicate key at one mapping level, raising a construction-time error
naming the (first) duplicated key, and behaves exactly as the default-mode
loader; on success the mapping keeps the document's key order unchanged (no
move-to-end happens during a parse, since assignment is guarded by the
duplicate check); the move-to-end overwrite of `_LastUpdatedOrderedDict`
applies only to re-assignment of an existing key. -/
theorem c9_ordered_loader_duplicates (pairs : List (String × Val))
    (m : List (String × Val)) (k : String) (v : Val)
    (hk : hasKey k m = true) :
    (construct_mapping_ordered pairs =
      (match firstDupKey [] pairs with
       | some k2 => .error ("found already in-use key (" ++ k2 ++ ")")
       | none => .ok pairs)) ∧
    construct_mapping_default pairs = construct_mapping_ordered pairs ∧
    ((luSetItem m k v).map Prod.fst = (m.map Prod.fst).erase k ++ [k] ∧
      (luSetItem m k v).getLast? = some (k, v)) := by
  obtain ⟨h1, h2⟩ := construct_go_eq [] pairs
  refine ⟨by simpa [construct_mapping_ordered] using h1,
    by simpa [construct_mapping_default, construct_mapping_ordered] using h2,
    ?_, ?_⟩
  · unfold luSetItem
    rw [hk]
    have hdel : ∀ (mm : List (String × Val)),
        (delKey k mm).map Prod.fst = (mm.map Prod.fst).erase k := by
      intro mm
      induction mm with
      | nil => rfl
      | cons p rest ih =>
        obtain ⟨k2, v2⟩ := p
        simp only [delKey, List.map_cons, List.erase_cons]
        by_cases h : k = k2
        · rw [if_pos h, if_pos (by simp [h])]
        · rw [if_neg h, if_neg (by simpa using fun hh => h hh.symm)]
          simp [ih]
    simp [hdel]
  · simp [luSetItem]

/-- Witness for C9 at concrete inputs: the pairs `[a:1, b:2, a:3]` carry a
duplicate `a`; the mapping `[x:1]` re-assigned at `x` moves it to the end. -/
theorem c9_ordered_loader_duplicates_witness :
    hasKey "x" [("x", Val.vint 1), ("y", Val.vint 2)] = true ∧
    (construct_mapping_ordered
        [("a", Val.vint 1), ("b", Val.vint 2), ("a", Val.vint 3)] =
      (match firstDupKey []
          [("a", Val.vint 1), ("b", Val.vint 2), ("a", Val.vint 3)] with
       | some k2 => .error ("found already in-use key (" ++ k2 ++ ")")
       | none => .ok [("a", Val.vint 1), ("b", Val.vint 2), ("a", Val.vint 3)])) ∧
    (luSetItem [("x", Val.vint 1), ("y", Val.vint 2)] "x" (Val.vint 9)).map
        Prod.fst =
      ((["x", "y"] : List String).erase "x") ++ ["x"] :=
  ⟨rfl,
    (c9_ordered_loader_duplicates
      [("a", Val.vint 1), ("b", Val.vint 2), ("a", Val.vint 3)]
      [("x", Val.vint 1), ("y", Val.vint 2)] "x" (Val.vint 9) rfl).1,
    (c9_ordered_loader_duplicates
      [("a", Val.vint 1), ("b", Val.vint 2), ("a", Val.vint 3)]
      [("x", Val.vint 1), ("y", Val.vint 2)] "x" (Val.vint 9) rfl).2.2.1⟩

/-!
## `importTypes` (yamlconfig.py lines 445-461)

The retry loop is modelled generically: the behaviour of
`self.createType(path + ":" + name, name, spec)` on the current registry is
abstracted as a `compile` function (the loop's control flow, which the
claims are about, does not depend on how compilation itself works), the
registry `self.types` as an association list with dict assignment.
-/

/-- The outcome of one `createType` call inside the `try`: success, an
exception deferred for retry, or a `TypeError`, which line 456-457 re-raises
immediately. -/
inductive CompileOutcome (τ ε : Type) where
  | ok (t : τ)
  | err (e : ε)
  | typeErr (e : ε)

/-- The outcome of the whole import: all types registered, the first
blocking failure of a no-progress pass re-raised (`raise problematics[0]`),
or a `TypeError` propagated out of the loop. -/
inductive ImportResult (τ ε : Type) where
  | ok (types : List (String × τ))
  | raised (e : ε)
  | typeErr (e : ε)

/-- `self.types[name] = ...`: dict assignment on the registry. -/
def regSet {τ : Type} (types : List (String × τ)) (k : String) (t : τ) :
    List (String × τ) :=
  match types with
  | [] => [(k, t)]
  | (k2, t2) :: rest =>
    if k = k2 then (k, t) :: rest else (k2, t2) :: regSet rest k t

/-- `if problematics: raise problematics[0]` after the loop. -/
def importFinish {τ ε : Type} (probs : List ε) (types : List (String × τ)) :
    ImportResult τ ε :=
  match probs with
  | [] => .ok types
  | e :: _ => .raised e

/-- The retry loop of `importTypes` (lines 449-461), also counting the
compilation attempts.  The source's loop condition is
`types_to_import and len(problematics) != len(types_to_import)`; a failure
re-appends its entry, so `problematics` never outgrows the queue and the
test is equivalent to the `≥` comparison used here (which also makes
termination manifest). -/
def importLoop {σ τ ε : Type}
    (compile : List (String × τ) → String → σ → CompileOutcome τ ε) :
    List (String × σ) → List ε → List (String × τ) → ImportResult τ ε × Nat
  | [], probs, types => (importFinish probs types, 0)
  | (name, spec) :: rest, probs, types =>
    if probs.length ≥ ((name, spec) :: rest).length then
      (importFinish probs types, 0)
    else
      match compile types name spec with
      | .ok t =>
        let r := importLoop compile rest [] (regSet types name t)
        (r.1, r.2 + 1)
      | .typeErr e => (.typeErr e, 1)
      | .err e =>
        let r := importLoop compile (rest ++ [(name, spec)]) (probs ++ [e]) types
        (r.1, r.2 + 1)
  termination_by queue probs _ => (queue.length, queue.length - probs.length)
  decreasing_by
  · apply Prod.Lex.left
    simp
  · have h : (rest ++ [(name, spec)]).length = ((name, spec) :: rest).length := by
      simp
    rw [h]
    apply Prod.Lex.right
    simp only [List.length_append, List.length_cons, List.length_nil] at *
    omega

/-- `importTypes` on the `(name, spec)` pairs of one type file, starting
from the current registry. -/
def importTypes {σ τ ε : Type}
    (compile : List (String × τ) → String → σ → CompileOutcome τ ε)
    (entries : List (String × σ)) (types : List (String × τ)) :
    ImportResult τ ε × Nat :=
  importLoop compile entries [] types

theorem importLoop_guard {σ τ ε : Type}
    (compile : List (String × τ) → String → σ → CompileOutcome τ ε)
    (queue : List (String × σ)) (probs : List ε) (types : List (String × τ))
    (h : probs.length ≥ queue.length) :
    importLoop compile queue probs types = (importFinish probs types, 0) := by
  cases queue with
  | nil => simp [importLoop]
  | cons q rest =>
    obtain ⟨name, spec⟩ := q
    rw [importLoop]
    rw [if_pos h]

/-- Attempts bound for the retry loop: starting from `probs` deferred
failures, at most `(q + q*q - 2*probs)/2` more compilation attempts happen
(stated multiplied by two to stay in `Nat`). -/
theorem importLoop_attempts {σ τ ε : Type}
    (compile : List (String × τ) → String → σ → CompileOutcome τ ε) :
    ∀ (queue : List (String × σ)) (probs : List ε)
      (types : List (String × τ)),
      probs.length ≤ queue.length →
      2 * (importLoop compile queue probs types).2 + 2 * probs.length ≤
        queue.length + queue.length * queue.length := by
  intro queue probs types
  induction queue, probs, types using importLoop.induct compile with
  | case1 probs types =>
    intro h
    simp only [List.length_nil, Nat.le_zero, List.length_eq_zero] at h
    subst h
    simp [importLoop, importFinish]
  | case2 name spec rest probs types hge =>
    intro h
    rw [importLoop_guard compile _ _ _ hge]
    have hle : rest.length + 1 ≤ (rest.length + 1) * (rest.length + 1) :=
      Nat.le_mul_of_pos_left _ (Nat.succ_pos _)
    simp only [List.length_cons] at h ⊢
    generalize (rest.length + 1) * (rest.length + 1) = Q at hle ⊢
    omega
  | case3 name spec rest probs types hlt t hok ih =>
    intro h
    rw [importLoop]
    rw [if_neg hlt]
    simp only [hok]
    have ihs := ih (by simp)
    simp only [List.length_nil, Nat.mul_zero, Nat.add_zero] at ihs
    have hsq : (rest.length + 1) * (rest.length + 1) =
        rest.length * rest.length + 2 * rest.length + 1 := by ring
    simp only [List.length_cons, not_le, List.length_cons] at hlt ⊢
    rw [hsq]
    generalize rest.length * rest.length = Q at ihs ⊢
    omega
  | case4 name spec rest probs types hlt e hte =>
    intro h
    rw [importLoop]
    rw [if_neg hlt]
    simp only [hte]
    have hle : rest.length + 1 ≤ (rest.length + 1) * (rest.length + 1) :=
      Nat.le_mul_of_pos_left _ (Nat.succ_pos _)
    simp only [List.length_cons, not_le] at hlt ⊢
    generalize (rest.length + 1) * (rest.length + 1) = Q at hle ⊢
    omega
  | case5 name spec rest probs types hlt e herr ih =>
    intro h
    rw [importLoop]
    rw [if_neg hlt]
    simp only [herr]
    have ihs := ih (by simp only [List.length_append, List.length_cons,
      List.length_nil]; simp only [List.length_cons, not_le] at hlt; omega)
    simp only [List.length_append, List.length_cons, List.length_nil] at ihs
    simp only [List.length_cons, not_le] at hlt ⊢
    generalize (rest.length + 1) * (rest.length + 1) = Q at ihs ⊢
    omega

/-- A full pass with no successful compilation: every queued entry fails
(deferred), `problematics` catches up with the queue, and the loop re-raises
the first failure recorded after the last progress. -/
theorem importLoop_no_progress {σ τ ε : Type}
    (compile : List (String × τ) → String → σ → CompileOutcome τ ε)
    (types : List (String × τ)) (errOf : String → σ → ε) :
    ∀ (d : Nat) (queue : List (String × σ)) (probs : List ε),
      queue.length - probs.length = d →
      probs.length < queue.length →
      (∀ p ∈ queue, compile types p.1 p.2 = .err (errOf p.1 p.2)) →
      importLoop compile queue probs types =
        ((match probs, queue with
          | e :: _, _ => ImportResult.raised e
          | [], q :: _ => ImportResult.raised (errOf q.1 q.2)
          | [], [] => ImportResult.ok types), d) := by
  intro d
  induction d with
  | zero => intro queue probs hd hlt; omega
  | succ d ih =>
    intro queue probs hd hlt hfail
    cases queue with
    | nil => simp at hlt
    | cons q rest =>
      obtain ⟨name, spec⟩ := q
      simp only [List.length_cons] at hd hlt
      have hf := hfail (name, spec) (List.mem_cons_self _ _)
      simp only at hf
      rw [importLoop]
      rw [if_neg (by simp only [List.length_cons]; omega)]
      simp only [hf]
      rcases Nat.eq_zero_or_pos d with hz | hpos
      · subst hz
        rw [importLoop_guard compile _ _ _
          (by simp only [List.length_append, List.length_cons,
            List.length_nil] at *; omega)]
        cases probs with
        | nil => simp [importFinish]
        | cons e ps => simp [importFinish]
      · rw [ih (rest ++ [(name, spec)]) (probs ++ [errOf name spec])
          (by simp only [List.length_append, List.length_cons,
            List.length_nil] at *; omega)
          (by simp only [List.length_append, List.length_cons,
            List.length_nil] at *; omega)
          (by
            intro p hp
            apply hfail
            rcases List.mem_append.mp hp with h | h
            · exact List.mem_cons_of_mem _ h
            · rcases List.mem_singleton.mp h with rfl
              exact List.mem_cons_self _ _)]
        cases probs with
        | nil => simp
        | cons e ps => simp

/-- C5: for every finite entry list and every behaviour of `createType`, the
retry loop of `importTypes` terminates with at most `(n + n²)/2` compilation
attempts (stated doubled to stay in `Nat`; in particular O(n²)), and when a
full pass over the queue compiles nothing (every entry keeps failing), the
the loop raises the first blocking failure of that pass — the failure of the
first queued entry. -/
theorem c5_import_fixed_point {σ τ ε : Type}
    (compile : List (String × τ) → String → σ → CompileOutcome τ ε)
    (entries : List (String × σ)) (types : List (String × τ))
    (errOf : String → σ → ε) :
    2 * (importTypes compile entries types).2 ≤
        entries.length + entries.length * entries.length ∧
    (∀ (name : String) (spec : σ) (rest : List (String × σ)),
      entries = (name, spec) :: rest →
      (∀ p ∈ entries, compile types p.1 p.2 = .err (errOf p.1 p.2)) →
      importTypes compile entries types =
        (.raised (errOf name spec), entries.length)) := by
  constructor
  · have h := importLoop_attempts compile entries [] types (by simp)
    simpa [importTypes] using h
  · intro name spec rest hent hfail
    subst hent
    unfold importTypes
    rw [importLoop_no_progress compile types errOf
      (((name, spec) :: rest).length) ((name, spec) :: rest) [] (by simp)
      (by simp) hfail]

/-- Witness for C5: two entries, a compiler that always defers: the bound
holds and the no-progress error is the first entry's failure after two
attempts. -/
theorem c5_import_fixed_point_witness :
    2 * (importTypes (fun (_ : List (String × Nat)) (_ : String) (s : Nat) =>
          (CompileOutcome.err s : CompileOutcome Nat Nat))
        [("a", 3), ("b", 4)] []).2 ≤ 2 + 2 * 2 ∧
    importTypes (fun (_ : List (String × Nat)) (_ : String) (s : Nat) =>
          (CompileOutcome.err s : CompileOutcome Nat Nat))
        [("a", 3), ("b", 4)] [] = (.raised 3, 2) := by
  have h := c5_import_fixed_point
    (fun (_ : List (String × Nat)) (_ : String) (s : Nat) =>
      (CompileOutcome.err s : CompileOutcome Nat Nat))
    [("a", 3), ("b", 4)] [] (fun _ s => s)
  exact ⟨h.1, h.2 "a" 3 [("b", 4)] rfl (fun p _ => rfl)⟩

/-- C10: a `TypeError` from compiling the queue's head propagates
immediately — the result is the `TypeError` itself after exactly one
compilation attempt (the entry is not deferred and no further entry is
attempted) — whereas every other failure defers the entry to the back of the
queue and records it, continuing the loop. -/
theorem c10_typeerror_aborts {σ τ ε : Type}
    (compile : List (String × τ) → String → σ → CompileOutcome τ ε)
    (name : String) (spec : σ) (rest : List (String × σ)) (probs : List ε)
    (types : List (String × τ))
    (hlt : probs.length < ((name, spec) :: rest).length) :
    (∀ e, compile types name spec = .typeErr e →
      importLoop compile ((name, spec) :: rest) probs types = (.typeErr e, 1)) ∧
    (∀ e, compile types name spec = .err e →
      importLoop compile ((name, spec) :: rest) probs types =
        ((importLoop compile (rest ++ [(name, spec)]) (probs ++ [e]) types).1,
          (importLoop compile (rest ++ [(name, spec)]) (probs ++ [e]) types).2
            + 1)) := by
  constructor
  · intro e he
    rw [importLoop]
    rw [if_neg (by omega), he]
  · intro e he
    rw [importLoop]
    rw [if_neg (by omega), he]

/-- Witness for C10: with a compiler whose first entry raises a `TypeError`,
the import aborts with it after one attempt, the second entry never being
attempted. -/
theorem c10_typeerror_aborts_witness :
    importLoop (fun (_ : List (String × Nat)) (n : String) (_ : Nat) =>
        if n = "a" then (CompileOutcome.typeErr 9 : CompileOutcome Nat Nat)
        else .ok 0)
      [("a", 3), ("b", 4)] [] [] = (.typeErr 9, 1) :=
  (c10_typeerror_aborts
    (fun (_ : List (String × Nat)) (n : String) (_ : Nat) =>
      if n = "a" then (CompileOutcome.typeErr 9 : CompileOutcome Nat Nat)
      else .ok 0)
    "a" 3 [("b", 4)] [] [] (by simp)).1 9 rfl

/-!
## `findSpec` (yamlconfig.py lines 182-200)

Path manipulation (`os.path.splitext`, `os.path.basename`, `os.path.join`,
`str.split`) is modelled over character lists, following the posixpath
algorithms.  The `exists` probe is a parameter of `findSpec` itself in the
source.
-/

/-- `s.split(c)` on character lists. -/
def splitOnChar (c : Char) : List Char → List (List Char)
  | [] => [[]]
  | x :: xs =>
    if x = c then [] :: splitOnChar c xs
    else
      match splitOnChar c xs with
      | [] => [[x]]
      | s :: ss => (x :: s) :: ss

/-- `c.join(parts)` on character lists. -/
def charIntercalate (c : Char) : List (List Char) → List Char
  | [] => []
  | [s] => s
  | s :: rest => s ++ c :: charIntercalate c rest

/-- `s.rfind(c)`: index of the last occurrence. -/
def rfindIdx (c : Char) : List Char → Option Nat
  | [] => none
  | x :: xs =>
    match rfindIdx c xs with
    | some i => some (i + 1)
    | none => if x = c then some 0 else none

/-- `os.path.basename`: the part after the last `/`. -/
def basenameL (cs : List Char) : List Char := (splitOnChar '/' cs).getLastD []

/-- `os.path.splitext` (posixpath): split at the last dot that lies after the
last separator, unless every character between the start of the file name
and that dot is itself a dot (leading dots carry no extension). -/
def splitextL (cs : List Char) : List Char × List Char :=
  let sepIndex : Int := match rfindIdx '/' cs with | some i => (i : Int) | none => -1
  let dotIndex : Int := match rfindIdx '.' cs with | some i => (i : Int) | none => -1
  if sepIndex < dotIndex then
    let filenameIndex := (sepIndex + 1).toNat
    if ((cs.drop filenameIndex).take (dotIndex.toNat - filenameIndex)).any
        (fun ch => ch ≠ '.') then
      (cs.take dotIndex.toNat, cs.drop dotIndex.toNat)
    else (cs, [])
  else (cs, [])

/-- `os.path.join(d, b)` (posixpath, two arguments). -/
def joinPath (d b : String) : String :=
  if (match b.data with | '/' :: _ => true | _ => false) then b
  else if d = "" || (match d.data.getLast? with | some '/' => true | _ => false)
    then d ++ b
  else d ++ "/" ++ b

/-- The inner `findMetaYaml` helper (lines 183-187): probe
`fn + ".meta.yaml"`. -/
def findMetaYaml (ex : String → Bool) (fn : String) : Option String :=
  let specfn := fn ++ ".meta.yaml"
  if ex specfn then some specfn else none

/-- One pass of the directory search (lines 194-197): first hit wins, in
directory order. -/
def findSpecDirs (ex : String → Bool) (dirs : List String) (base : String) :
    Option String :=
  match dirs with
  | [] => none
  | d :: rest =>
    match findMetaYaml ex (joinPath d base) with
    | some s => some s
    | none => findSpecDirs ex rest base

/-- The `while basespecfn:` loop (lines 193-200) over the dot-segments of the
remaining base name: try every directory, then strip everything up to and
including the first dot (`basespecfn.split(".", 1)[1]`) — equivalently, drop
the leading segment — returning `None` once no dot is left (or the name has
become empty). -/
def findSpecLoop (ex : String → Bool) (dirs : List String) :
    List (List Char) → Option String
  | [] => none
  | seg :: rest =>
    let base := String.mk (charIntercalate '.' (seg :: rest))
    if base = "" then none
    else
      match findSpecDirs ex dirs base with
      | some s => some s
      | none => if rest.isEmpty then none else findSpecLoop ex dirs rest

/-- `findSpec(fn, yamltypes_dirs, exists)` (lines 182-200). -/
def findSpec (fn : String) (dirs : List String) (ex : String → Bool) :
    Option String :=
  let basespecfn := String.mk (splitextL fn.data).1
  match findMetaYaml ex basespecfn with
  | some s => some s
  | none => findSpecLoop ex dirs (splitOnChar '.' (basenameL basespecfn.data))

/-- The list of base names the loop tries, in order. -/
def suffixBases : List (List Char) → List String
  | [] => []
  | seg :: rest =>
    let b := String.mk (charIntercalate '.' (seg :: rest))
    if b = "" then []
    else b :: (if rest.isEmpty then [] else suffixBases rest)

/-- All spec candidates `findSpec` probes, in probe order: the companion
next to the file, then each surviving base name in each directory. -/
def specCandidates (fn : String) (dirs : List String) : List String :=
  let base := String.mk (splitextL fn.data).1
  (base ++ ".meta.yaml") ::
    (suffixBases (splitOnChar '.' (basenameL base.data))).flatMap
      (fun b => dirs.map (fun d => joinPath d b ++ ".meta.yaml"))

/-- The first existing candidate. -/
def firstExisting (ex : String → Bool) : List String → Option String
  | [] => none
  | c :: rest => if ex c then some c else firstExisting ex rest

theorem firstExisting_append (ex : String → Bool) (l1 l2 : List String) :
    firstExisting ex (l1 ++ l2) =
      (match firstExisting ex l1 with
       | some s => some s
       | none => firstExisting ex l2) := by
  induction l1 with
  | nil => simp [firstExisting]
  | cons c rest ih =>
    simp only [List.cons_append, firstExisting]
    by_cases h : ex c <;> simp [h, ih]

theorem findSpecDirs_eq (ex : String → Bool) (dirs : List String)
    (base : String) :
    findSpecDirs ex dirs base =
      firstExisting ex (dirs.map (fun d => joinPath d base ++ ".meta.yaml")) := by
  induction dirs with
  | nil => rfl
  | cons d rest ih =>
    simp only [findSpecDirs, findMetaYaml, List.map_cons, firstExisting]
    by_cases h : ex (joinPath d base ++ ".meta.yaml") <;> simp [h, ih]

theorem findSpecLoop_eq (ex : String → Bool) (dirs : List String)
    (segs : List (List Char)) :
    findSpecLoop ex dirs segs =
      firstExisting ex ((suffixBases segs).flatMap
        (fun b => dirs.map (fun d => joinPath d b ++ ".meta.yaml"))) := by
  induction segs with
  | nil => rfl
  | cons seg rest ih =>
    simp only [findSpecLoop, suffixBases]
    by_cases hb : String.mk (charIntercalate '.' (seg :: rest)) = ""
    · simp [hb, firstExisting]
    · rw [if_neg hb, if_neg hb]
      simp only [List.flatMap_cons, firstExisting_append, findSpecDirs_eq]
      cases h : firstExisting ex
          (dirs.map (fun d =>
            joinPath d (String.mk (charIntercalate '.' (seg :: rest)))
              ++ ".meta.yaml")) with
      | some s => simp [h]
      | none =>
        simp only [h]
        by_cases hr : rest.isEmpty
        · rw [if_pos hr]
          rw [List.isEmpty_iff.mp hr]
          simp [suffixBases, firstExisting]
        · rw [if_neg hr, ih]
          rw [if_neg hr]

/-- C7 as amended: `findSpec` first probes the companion
`splitext(fn)[0] + ".meta.yaml"`; failing that it takes the base name and
repeatedly strips the *leading* dot-segment (`split(".", 1)[1]`), probing
each surviving name in each configured directory in order, and returns the
first existing candidate or `None` once no dot-segment is left. -/
theorem c7_findspec_candidates (fn : String) (dirs : List String)
    (ex : String → Bool) :
    findSpec fn dirs ex = firstExisting ex (specCandidates fn dirs) := by
  unfold findSpec specCandidates
  simp only [findMetaYaml, firstExisting]
  by_cases h : ex (String.mk (splitextL fn.data).1 ++ ".meta.yaml")
  · simp [h]
  · simp only [h, if_neg, Bool.false_eq_true, if_false]
    exact findSpecLoop_eq ex dirs _

/-- The discovery procedure as the spec's words describe it: identical except
that the loop strips the *last* dot-segment of the base name.  The segment
list is processed reversed, the head being the last segment. -/
def findSpecLastSegLoop (ex : String → Bool) (dirs : List String) :
    List (List Char) → Option String
  | [] => none
  | seg :: rest =>
    let base := String.mk (charIntercalate '.' (seg :: rest).reverse)
    if base = "" then none
    else
      match findSpecDirs ex dirs base with
      | some s => some s
      | none => if rest.isEmpty then none else findSpecLastSegLoop ex dirs rest

def findSpecLastSegment (fn : String) (dirs : List String) (ex : String → Bool) :
    Option String :=
  let basespecfn := String.mk (splitextL fn.data).1
  match findMetaYaml ex basespecfn with
  | some s => some s
  | none =>
    findSpecLastSegLoop ex dirs
      (splitOnChar '.' (basenameL basespecfn.data)).reverse

/-- C7 counterexample: on `a.b.yaml` with one search directory `d` and only
`d/b.meta.yaml` existing, the code finds `d/b.meta.yaml` (it strips the
*leading* segment `a`, probing `a.b` then `b`), while the spec's
last-segment stripping would probe `a.b` then `a` and find nothing. -/
theorem c7_counterexample :
    findSpec "a.b.yaml" ["d"] (fun s => s = "d/b.meta.yaml") =
        some "d/b.meta.yaml" ∧
      findSpecLastSegment "a.b.yaml" ["d"] (fun s => s = "d/b.meta.yaml") =
        none := by
  constructor <;> rfl

/-!
## `applyCustomizationRule` (yamlconfig.py lines 245-317)

In-place mutation of the nested target is modelled by rebuilding the root.
The `cactusLog.debug` calls at lines 266-270 are effect-free for mapping
targets (they evaluate `obj[selector]` only when the key is present); for
the non-mapping targets on which that evaluation could itself raise, every
surrounding branch already ends in a host-level error here, so logging is
not modelled.  Exact `repr`
renderings inside error messages reuse `pyStr` (no claim observes a
container or quoted rendering beyond the fixed message prefix).
-/

/-- `CustomizationError` vs. any host-level Python exception
(`TypeError`, `KeyError`, `AttributeError`, `ValueError`, `IndexError`). -/
inductive CErr where
  | customization (msg : String)
  | hostError (msg : String)

/-- `value is None`. -/
def isNullV : Val → Bool
  | .vnull => true
  | _ => false

/-- Split at the first occurrence of `c` (`s.split(c, 1)`), if any. -/
def splitFirstChar (c : Char) : List Char → Option (List Char × List Char)
  | [] => none
  | x :: xs =>
    if x = c then some ([], xs)
    else
      match splitFirstChar c xs with
      | none => none
      | some (a, b) => some (x :: a, b)

/-- `s.strip()`. -/
def trimChars (cs : List Char) : List Char :=
  ((cs.dropWhile Char.isWhitespace).reverse.dropWhile Char.isWhitespace).reverse

/-- Lines 257-260: `action = "REPLACE"`, then split the final segment at the
first `:` and strip the action. -/
def parseAction (cs : List Char) : List Char × String :=
  match splitFirstChar ':' cs with
  | none => (cs, "REPLACE")
  | some (a, b) => (a, String.mk (trimChars b))

/-- `needle` occurs as a contiguous substring of `hay` (Python `in` on
strings). -/
def startsWithChars : List Char → List Char → Bool
  | [], _ => true
  | _ :: _, [] => false
  | a :: as1, b :: bs => a = b && startsWithChars as1 bs

def isSubstringChars (needle : List Char) : List Char → Bool
  | [] => needle.isEmpty
  | hay@(_ :: rest) => startsWithChars needle hay || isSubstringChars needle rest

/-- `sel in obj` for the membership tests at lines 262 and 294: key lookup on
mappings, element equality on sequences, substring on strings, `TypeError`
otherwise. -/
def pyContains (obj : Val) (k : String) : Except CErr Bool :=
  match obj with
  | .vmap m => .ok (hasKey k m)
  | .vlist xs => .ok (xs.any (fun w => pyEq w (.vstr k)))
  | .vstr s => .ok (isSubstringChars k.data s.data)
  | _ => .error (.hostError "argument of type is not iterable")

/-- `value` as a Python index (`list.pop` argument): integers and booleans. -/
def pyIndex : Val → Option Int
  | .vint n => some n
  | .vbool b => some (if b then 1 else 0)
  | _ => none

/-- `xs.pop(i)` with Python's negative indexing; `none` is the
`IndexError`. -/
def listPop (xs : List Val) (i : Int) : Option (List Val) :=
  let j : Int := if i < 0 then (xs.length : Int) + i else i
  if 0 ≤ j ∧ j < (xs.length : Int) then
    some (xs.take j.toNat ++ xs.drop (j.toNat + 1))
  else none

/-- `xs.remove(v)`: drop the first element equal to `v`; `none` is the
`ValueError`. -/
def listRemove (xs : List Val) (v : Val) : Option (List Val) :=
  match xs with
  | [] => none
  | x :: rest =>
    if pyEq x v then some rest
    else
      match listRemove rest v with
      | none => none
      | some ys => some (x :: ys)

/-- `for v in value: obj[selector].remove(v)`. -/
def listRemoveAll (xs : List Val) : List Val → Option (List Val)
  | [] => some xs
  | v :: vs =>
    match listRemove xs v with
    | none => none
    | some xs2 => listRemoveAll xs2 vs

/-- Lines 262-317: the action dispatch on the already-traversed target
`obj`, with the final selector `sel` and `action` parsed. -/
def applyParsedAction (origSel : String) (obj : Val) (sel : String)
    (action : String) (value : Val) : Except CErr Val :=
  -- line 262: `if selector and selector not in obj and action not in
  -- ["REPLACE", "DELETEIF"]: raise`
  match
    (if sel == "" then .ok ()
     else
       match pyContains obj sel with
       | .error e => .error e
       | .ok true => .ok ()
       | .ok false =>
         if action == "REPLACE" || action == "DELETEIF" then .ok ()
         else
           .error (.customization ("selector: \x27" ++ origSel
             ++ "\x27 wants to modify non-existing key \x27" ++ sel
             ++ "\x27 at: " ++ pyStr obj)) : Except CErr Unit) with
  | .error e => .error e
  | .ok _ =>
    if action == "REPLACE" && !(sel == "") then
      match obj with
      | .vmap m => .ok (.vmap (dictSetItem m sel value))
      | _ => .error (.hostError "object does not support item assignment")
    else if action == "REPLACE" && sel == "" && isinst obj .list then
      match value with
      | .vlist ys => .ok (.vlist ys)
      | _ =>
        .error (.customization
          ("can only replace list by other list, not " ++ pyStr value))
    else if action == "REPLACE" && sel == "" && isinst obj .dict then
      match value with
      | .vmap kvs => .ok (.vmap kvs)
      | _ =>
        .error (.customization
          ("can only replace dict by other dict, not " ++ pyStr value))
    else if action == "DEL" || action == "DELETE" || action == "DELETEIF" then
      if !isNullV value then
        .error (.customization ("selector: \x27" ++ origSel
          ++ "\x27 value is ignored because it is a delete"))
      else if !(sel == "") then
        -- `if selector in obj: del obj[selector]`
        match obj with
        | .vmap m => .ok (.vmap (if hasKey sel m then delKey sel m else m))
        | _ =>
          match pyContains obj sel with
          | .error e => .error e
          | .ok true => .error (.hostError "object does not support item deletion")
          | .ok false => .ok obj
      else
        -- DELETE_ALL: `obj.clear()` — Python 2 lists have no `clear`
        match obj with
        | .vmap _ => .ok (.vmap [])
        | _ => .error (.hostError "object has no attribute clear")
    else if action == "APPEND" then
      match obj with
      | .vmap m =>
        match lookupKey sel m with
        | none => .error (.hostError "KeyError")
        | some (.vlist xs) =>
          .ok (.vmap (dictSetItem m sel (.vlist (xs ++ [value]))))
        | some _ => .error (.hostError "object has no attribute append")
      | _ => .error (.hostError "object is not subscriptable")
    else if action == "EXTEND" then
      match obj with
      | .vmap m =>
        match lookupKey sel m with
        | none => .error (.hostError "KeyError")
        | some (.vlist xs) =>
          match value with
          | .vlist ys => .ok (.vmap (dictSetItem m sel (.vlist (xs ++ ys))))
          | _ => .error (.hostError "object is not iterable")
        | some _ => .error (.hostError "object has no attribute extend")
      | _ => .error (.hostError "object is not subscriptable")
    else if action == "POP" then
      match obj with
      | .vmap m =>
        match lookupKey sel m with
        | none => .error (.hostError "KeyError")
        | some (.vlist xs) =>
          match pyIndex value with
          | none => .error (.hostError "argument must be an integer")
          | some i =>
            match listPop xs i with
            | none => .error (.hostError "pop index out of range")
            | some ys => .ok (.vmap (dictSetItem m sel (.vlist ys)))
        | some _ => .error (.hostError "pop on a non-sequence target")
      | _ => .error (.hostError "object is not subscriptable")
    else if action == "REMOVE" then
      match obj with
      | .vmap m =>
        match lookupKey sel m with
        | none => .error (.hostError "KeyError")
        | some (.vlist xs) =>
          match
            (match value with
             | .vlist vs => listRemoveAll xs vs
             | v => listRemove xs v) with
          | none => .error (.hostError "list.remove: x not in list")
          | some ys => .ok (.vmap (dictSetItem m sel (.vlist ys)))
        | some _ => .error (.hostError "object has no attribute remove")
      | _ => .error (.hostError "object is not subscriptable")
    else
      .error (.customization
        ("selector: unsupported action \x27" ++ origSel ++ "\x27"))

/-- The `while selector.find(".") >= 0` traversal (lines 248-256) over the
dot-segments, then the action application on the final segment.  Every
non-final segment must name an existing key of a mapping; descending into a
non-mapping fails; when the current object is itself not a mapping the
membership test or the message's `obj.keys()` raises a host error. -/
def applyAtPath (origSel : String) (value : Val) :
    Val → List (List Char) → Except CErr Val
  | _, [] => .error (.hostError "empty selector segment list")
  | obj, [final] =>
    let pa := parseAction final
    applyParsedAction origSel obj (String.mk pa.1) pa.2 value
  | obj, seg :: s2 :: rest =>
    let key := String.mk seg
    match obj with
    | .vmap m =>
      match lookupKey key m with
      | none =>
        .error (.customization ("selector: \x27" ++ origSel
          ++ "\x27 wants to traverse non-existing key \x27" ++ key
          ++ "\x27 in: " ++ pyReprStrList (m.map Prod.fst)))
      | some child =>
        if !isinst child .dict then
          .error (.customization ("selector: \x27" ++ origSel
            ++ "\x27 wants to traverse a non dictionary object \x27" ++ key
            ++ "\x27 in: " ++ pyStr child))
        else
          match applyAtPath origSel value child (s2 :: rest) with
          | .error e => .error e
          | .ok child2 => .ok (.vmap (dictSetItem m key child2))
    | _ => .error (.hostError "traversal of a non-mapping object")

/-- `YamlConfigBuilder.applyCustomizationRule(obj, selector, value)`. -/
def applyCustomizationRule (obj : Val) (selector : String) (value : Val) :
    Except CErr Val :=
  applyAtPath selector value obj (splitOnChar '.' selector.data)

example :
    applyCustomizationRule (.vmap [("a", .vmap [("b", .vint 1),
        ("c", .vlist [.vint 1, .vint 2, .vint 3])])]) "a.c:APPEND" (.vint 4) =
      .ok (.vmap [("a", .vmap [("b", .vint 1),
        ("c", .vlist [.vint 1, .vint 2, .vint 3, .vint 4])])]) := rfl

theorem isNullV_false_of_ne (value : Val) (h : value ≠ .vnull) :
    isNullV value = false := by
  cases value with
  | vnull => exact absurd rfl h
  | vstr s => rfl
  | vint n => rfl
  | vbool b => rfl
  | vlist xs => rfl
  | vmap kvs => rfl

/-- C4 counterexample: `DELETE` of the absent key `b` is *not* a silent
no-op — the line-262 precondition (which exempts only `REPLACE` and
`DELETEIF`) raises a `CustomizationError` first. -/
theorem c4_counterexample :
    applyCustomizationRule (.vmap [("a", .vint 1)]) "b:DELETE" .vnull =
      .error (.customization
        ("selector: \x27b:DELETE\x27 wants to modify non-existing key \x27b\x27"
          ++ " at: {...}")) := rfl

/-- C4 as amended: for a `DELETE`/`DEL` rule with a non-empty final selector
segment on a mapping, (i) a present key with a null rule value is removed;
(ii) an *absent* key is an error — the line-262 missing-key precondition
fires (only `REPLACE` and `DELETEIF` are exempt), regardless of the rule
value; (iii) a present key with a non-null rule value is an error
("value is ignored because it is a delete"). -/
theorem c4_delete_semantics (origSel : String) (m : List (String × Val))
    (sel : String) (act : String) (value : Val)
    (hact : act = "DELETE" ∨ act = "DEL") (hsel : sel ≠ "") :
    (value = .vnull → hasKey sel m = true →
      applyParsedAction origSel (.vmap m) sel act value =
        .ok (.vmap (delKey sel m))) ∧
    (hasKey sel m = false →
      applyParsedAction origSel (.vmap m) sel act value =
        .error (.customization ("selector: \x27" ++ origSel
          ++ "\x27 wants to modify non-existing key \x27" ++ sel
          ++ "\x27 at: " ++ pyStr (.vmap m)))) ∧
    (value ≠ .vnull → hasKey sel m = true →
      applyParsedAction origSel (.vmap m) sel act value =
        .error (.customization ("selector: \x27" ++ origSel
          ++ "\x27 value is ignored because it is a delete"))) := by
  have hb : (sel == "") = false := by simpa using hsel
  rcases hact with rfl | rfl <;>
    refine ⟨?_, ?_, ?_⟩
  · intro hv hk
    subst hv
    unfold applyParsedAction
    rw [if_neg (show ¬((sel == "") = true) by simp [hb])]
    simp only [pyContains, hk]
    rw [if_neg (by simp), if_neg (by simp), if_neg (by simp),
      if_pos (by decide), if_neg (by decide), if_pos (by simp [hb])]
    simp
  · intro hk
    unfold applyParsedAction
    rw [if_neg (show ¬((sel == "") = true) by simp [hb])]
    simp only [pyContains, hk]
    rw [if_neg (by decide)]
  · intro hv hk
    have hnv := isNullV_false_of_ne value hv
    unfold applyParsedAction
    rw [if_neg (show ¬((sel == "") = true) by simp [hb])]
    simp only [pyContains, hk]
    rw [if_neg (by simp), if_neg (by simp), if_neg (by simp),
      if_pos (by decide), if_pos (by simp [hnv])]
  · intro hv hk
    subst hv
    unfold applyParsedAction
    rw [if_neg (show ¬((sel == "") = true) by simp [hb])]
    simp only [pyContains, hk]
    rw [if_neg (by simp), if_neg (by simp), if_neg (by simp),
      if_pos (by decide), if_neg (by decide), if_pos (by simp [hb])]
    simp
  · intro hk
    unfold applyParsedAction
    rw [if_neg (show ¬((sel == "") = true) by simp [hb])]
    simp only [pyContains, hk]
    rw [if_neg (by decide)]
  · intro hv hk
    have hnv := isNullV_false_of_ne value hv
    unfold applyParsedAction
    rw [if_neg (show ¬((sel == "") = true) by simp [hb])]
    simp only [pyContains, hk]
    rw [if_neg (by simp), if_neg (by simp), if_neg (by simp),
      if_pos (by decide), if_pos (by simp [hnv])]

/-- Witness for the amended C4 at concrete inputs: on `{a: 1, b: 2}`,
`DELETE` of present `a` with null value removes it; `DELETE` of absent `c`
errors; `DELETE` of present `a` with value `5` errors. -/
theorem c4_delete_semantics_witness :
    applyParsedAction "a:DELETE" (.vmap [("a", .vint 1), ("b", .vint 2)])
        "a" "DELETE" .vnull =
      .ok (.vmap (delKey "a" [("a", .vint 1), ("b", .vint 2)])) ∧
    applyParsedAction "c:DELETE" (.vmap [("a", .vint 1), ("b", .vint 2)])
        "c" "DELETE" .vnull =
      .error (.customization
        ("selector: \x27c:DELETE\x27 wants to modify non-existing key \x27c\x27"
          ++ " at: {...}")) ∧
    applyParsedAction "a:DEL" (.vmap [("a", .vint 1), ("b", .vint 2)])
        "a" "DEL" (.vint 5) =
      .error (.customization
        "selector: \x27a:DEL\x27 value is ignored because it is a delete") := by
  refine ⟨?_, ?_, ?_⟩
  · exact (c4_delete_semantics "a:DELETE" [("a", .vint 1), ("b", .vint 2)]
      "a" "DELETE" .vnull (Or.inl rfl) (by decide)).1 rfl rfl
  · have h := (c4_delete_semantics "c:DELETE" [("a", .vint 1), ("b", .vint 2)]
      "c" "DELETE" .vnull (Or.inl rfl) (by decide)).2.1 rfl
    simpa using h
  · have h := (c4_delete_semantics "a:DEL" [("a", .vint 1), ("b", .vint 2)]
      "a" "DEL" (.vint 5) (Or.inr rfl) (by decide)).2.2
      (by intro hc; cases hc) rfl
    simpa using h

/-!
## Set uniqueness (claim C2)
-/

/-- The value `Set.match`'s scan stops on: the first element that recurs
(by Python equality) later in the sequence. -/
def firstDupVal : List Val → Option Val
  | [] => none
  | v :: vs =>
    if vs.any (fun w => pyEq v w) then some v else firstDupVal vs

/-- No element recurs later (pairwise Python-distinct). -/
def pyNodup : List Val → Bool
  | [] => true
  | v :: vs => !vs.any (fun w => pyEq v w) && pyNodup vs

theorem setScan_eq (path : String) (whole ys : List Val) :
    setScan path whole ys =
      (firstDupVal ys).map (fun v => .yamlError path (.vlist whole)
        (pyStr v ++ " is included several times in a set")) := by
  induction ys with
  | nil => rfl
  | cons v vs ih =>
    simp only [setScan, firstDupVal]
    by_cases h : vs.any (fun w => pyEq v w) <;> simp [h, ih]

theorem firstDupVal_none_iff (ys : List Val) :
    firstDupVal ys = none ↔ pyNodup ys = true := by
  induction ys with
  | nil => simp [firstDupVal, pyNodup]
  | cons v vs ih =>
    simp only [firstDupVal, pyNodup]
    by_cases h : vs.any (fun w => pyEq v w) <;> simp [h, ih]

theorem pyEq_refl_hashable (v : Val) (h : pyHashable v = true) :
    pyEq v v = true := by
  cases v <;> simp_all [pyEq, pyHashable]

theorem pyEq_symm_hashable (v w : Val) (hv : pyHashable v = true)
    (hw : pyHashable w = true) (h : pyEq v w = true) : pyEq w v = true := by
  cases v <;> cases w <;>
    simp only [pyEq, pyHashable, decide_eq_true_eq, Bool.false_eq_true]
      at h hv hw ⊢ <;>
    first
    | rfl
    | exact h.elim
    | exact hv.elim
    | exact hw.elim
    | omega
    | exact h.symm

theorem pyEq_trans_hashable (u v w : Val) (hu : pyHashable u = true)
    (hv : pyHashable v = true) (hw : pyHashable w = true)
    (h1 : pyEq u v = true) (h2 : pyEq v w = true) : pyEq u w = true := by
  cases u <;> cases v <;> cases w <;>
    simp only [pyEq, pyHashable, decide_eq_true_eq, Bool.false_eq_true]
      at h1 h2 hu hv hw ⊢ <;>
    first
    | rfl
    | exact h1.elim
    | exact h2.elim
    | exact hu.elim
    | exact hv.elim
    | exact hw.elim
    | omega
    | exact h1.trans h2
    | exact bool2int_inj _ _ (by omega)
    | (subst h1 <;> omega)
    | (subst h2 <;> omega)

/-- `set(ys)` on hashable elements: the set is the list of class
representatives — sound, covering, no larger than `ys`, and of equal size
exactly when `ys` has no repeats. -/
theorem pySetOf_spec (ys : List Val) (h : ∀ y ∈ ys, pyHashable y = true) :
    ∃ s, pySetOf ys = some s ∧
      (∀ w ∈ s, w ∈ ys) ∧
      (∀ u ∈ ys, ∃ w ∈ s, pyEq w u = true) ∧
      s.length ≤ ys.length ∧
      (s.length = ys.length ↔ pyNodup ys = true) := by
  induction ys with
  | nil => exact ⟨[], rfl, by simp, by simp, by simp, by simp [pyNodup]⟩
  | cons v vs ih =>
    have hv : pyHashable v = true := h v (List.mem_cons_self _ _)
    have hvs : ∀ y ∈ vs, pyHashable y = true :=
      fun y hy => h y (List.mem_cons_of_mem _ hy)
    obtain ⟨s, hs, hsound, hcover, hle, hiff⟩ := ih hvs
    by_cases hany : s.any (fun w => pyEq w v) = true
    · refine ⟨s, ?_, ?_, ?_, ?_, ?_⟩
      · simp [pySetOf, hv, hs, hany]
      · exact fun w hw => List.mem_cons_of_mem _ (hsound w hw)
      · intro u hu
        rcases List.mem_cons.mp hu with rfl | hu
        · obtain ⟨w, hw, hweq⟩ := List.any_eq_true.mp hany
          exact ⟨w, hw, hweq⟩
        · exact hcover u hu
      · simpa using Nat.le_succ_of_le hle
      · constructor
        · intro hlen
          exfalso
          simp only [List.length_cons] at hlen
          omega
        · intro hnd
          exfalso
          simp only [pyNodup, Bool.and_eq_true, Bool.not_eq_true'] at hnd
          obtain ⟨w, hw, hweq⟩ := List.any_eq_true.mp hany
          have hwvs := hsound w hw
          have : pyEq v w = true :=
            pyEq_symm_hashable w v (hvs w hwvs) hv hweq
          have : vs.any (fun w2 => pyEq v w2) = true :=
            List.any_eq_true.mpr ⟨w, hwvs, this⟩
          rw [hnd.1] at this
          cases this
    · refine ⟨v :: s, ?_, ?_, ?_, ?_, ?_⟩
      · simp only [pySetOf, hv, hs, if_true]
        rw [if_neg hany]
      · intro w hw
        rcases List.mem_cons.mp hw with rfl | hw
        · exact List.mem_cons_self _ _
        · exact List.mem_cons_of_mem _ (hsound w hw)
      · intro u hu
        rcases List.mem_cons.mp hu with rfl | hu
        · exact ⟨u, List.mem_cons_self _ _, pyEq_refl_hashable u hv⟩
        · obtain ⟨w, hw, hweq⟩ := hcover u hu
          exact ⟨w, List.mem_cons_of_mem _ hw, hweq⟩
      · simpa using hle
      · have hnorec : vs.any (fun w => pyEq v w) = false := by
          rw [Bool.eq_false_iff]
          intro hrec
          obtain ⟨u, hu, hueq⟩ := List.any_eq_true.mp hrec
          obtain ⟨w, hw, hweq⟩ := hcover u hu
          have h1 : pyEq w v = true :=
            pyEq_trans_hashable w u v (hvs w (hsound w hw)) (hvs u hu) hv
              hweq (pyEq_symm_hashable v u hv (hvs u hu) hueq)
          have : s.any (fun w2 => pyEq w2 v) = true :=
            List.any_eq_true.mpr ⟨w, hw, h1⟩
          rw [this] at hany
          exact hany rfl
        simp only [List.length_cons, pyNodup, hnorec, Bool.not_false,
          Bool.true_and, Nat.succ_inj]
        exact hiff

/-- `setUniq` — the uniqueness tail of `Set.match` — on hashable elements:
the scan's verdict, an error naming the first recurring value or a pass. -/
theorem setUniq_eq (path : String) (ys : List Val)
    (h : ∀ y ∈ ys, pyHashable y = true) :
    setUniq path ys =
      (match firstDupVal ys with
       | some v => .error (.yamlError path (.vlist ys)
           (pyStr v ++ " is included several times in a set"))
       | none => .ok ()) := by
  obtain ⟨s, hs, _, _, hle, hiff⟩ := pySetOf_spec ys h
  unfold setUniq
  simp only [hs]
  cases hd : firstDupVal ys with
  | none =>
    have hnd := (firstDupVal_none_iff ys).mp hd
    have hlen := hiff.mpr hnd
    rw [if_neg (by omega)]
  | some v =>
    have hne : s.length ≠ ys.length := by
      intro hlen
      have := hiff.mp hlen
      rw [← firstDupVal_none_iff] at this
      rw [hd] at this
      cases this
    rw [if_pos (by omega)]
    rw [setScan_eq, hd]
    rfl

theorem ensure_type_vlist_ok (mnull : Bool) (path : String) (xs : List Val) :
    ensure_type mnull .list path (.vlist xs) = .ok () := by
  cases mnull <;> rfl

/-- C2 counterexample: a `Set` whose element type is itself a list type
(`setoflistsofstrings`), given two *distinct* element-matching sequences —
the claim says it passes, but evaluating `len(set(val))` raises a host
`TypeError` (lists are unhashable). -/
theorem c2_counterexample :
    tyMatchF (.set "s" (.list "l" (.scalar "e" .str [] noAttrs) noAttrs)
        noAttrs) "p" (.vlist [.vlist [], .vlist [.vstr "a"]]) =
      .error (.pyError "unhashable type") := rfl

/-- C2 as amended: for a compiled `Set` type and a sequence whose elements
all satisfy the element type (rewritten to `ys` by the element pass) and are
all hashable (scalars), `Set.match` fails exactly when some element occurs
more than once under Python equality, scanning left to right and naming, as
"included several times in a set", the first value that recurs later in the
remaining sequence; with no repeats it passes.  (With an unhashable —
sequence or mapping — element, building `set(val)` raises a host `TypeError`
even when there are no repeats.) -/
theorem c2_set_uniqueness (name : String) (spec : Ty) (attrs : Attrs)
    (path : String) (xs ys : List Val)
    (hiter : listIterF (tyMatchF spec) path 0 xs = .ok ys)
    (hhash : ∀ y ∈ ys, pyHashable y = true) :
    tyMatchF (.set name spec attrs) path (.vlist xs) =
      (match firstDupVal ys with
       | some v => .error (.yamlError path (.vlist ys)
           (pyStr v ++ " is included several times in a set"))
       | none => .ok (.vlist ys)) ∧
    (firstDupVal ys = none ↔ pyNodup ys = true) := by
  refine ⟨?_, firstDupVal_none_iff ys⟩
  simp only [tyMatchF, ensure_type_vlist_ok, hiter, setUniq_eq path ys hhash]
  cases hd : firstDupVal ys <;> simp [hd]

/-- Witness for the amended C2: the spec's concrete scenario
`["a", "b", "a"]` against a set-of-strings fails naming `a`; `["a", "b"]`
passes. -/
theorem c2_set_uniqueness_witness :
    tyMatchF (.set "s" (.scalar "e" .str [] noAttrs) noAttrs) "s"
        (.vlist [.vstr "a", .vstr "b", .vstr "a"]) =
      (match firstDupVal [.vstr "a", .vstr "b", .vstr "a"] with
       | some v => .error (.yamlError "s"
           (.vlist [.vstr "a", .vstr "b", .vstr "a"])
           (pyStr v ++ " is included several times in a set"))
       | none => .ok (.vlist [.vstr "a", .vstr "b", .vstr "a"])) ∧
    tyMatchF (.set "s" (.scalar "e" .str [] noAttrs) noAttrs) "s"
        (.vlist [.vstr "a", .vstr "b"]) =
      (match firstDupVal [.vstr "a", .vstr "b"] with
       | some v => .error (.yamlError "s" (.vlist [.vstr "a", .vstr "b"])
           (pyStr v ++ " is included several times in a set"))
       | none => .ok (.vlist [.vstr "a", .vstr "b"])) := by
  constructor
  · exact (c2_set_uniqueness "s" (.scalar "e" .str [] noAttrs) noAttrs "s"
      [.vstr "a", .vstr "b", .vstr "a"] [.vstr "a", .vstr "b", .vstr "a"]
      rfl (by
        intro y hy
        simp only [List.mem_cons, List.not_mem_nil, or_false] at hy
        rcases hy with rfl | rfl | rfl <;> rfl)).1
  · exact (c2_set_uniqueness "s" (.scalar "e" .str [] noAttrs) noAttrs "s"
      [.vstr "a", .vstr "b"] [.vstr "a", .vstr "b"]
      rfl (by
        intro y hy
        simp only [List.mem_cons, List.not_mem_nil, or_false] at hy
        rcases hy with rfl | rfl <;> rfl)).1

/-!
## Idempotence of validation-with-defaulting (claim C6)
-/

theorem listIterF_idem (f : Matcher)
    (hf : ∀ p a b, f p a = .ok b → f p b = .ok b) :
    ∀ (path : String) (i : Nat) (xs ys : List Val),
      listIterF f path i xs = .ok ys → listIterF f path i ys = .ok ys := by
  intro path i xs
  induction xs generalizing i with
  | nil =>
    intro ys h
    simp only [listIterF] at h
    cases h
    rfl
  | cons x rest ih =>
    intro ys h
    simp only [listIterF] at h
    cases h1 : f (path ++ "[" ++ toString i ++ "]") x with
    | error e => rw [h1] at h; cases h
    | ok y =>
      rw [h1] at h
      cases h2 : listIterF f path (i + 1) rest with
      | error e => rw [h2] at h; cases h
      | ok ys2 =>
        rw [h2] at h
        cases h
        simp only [listIterF]
        rw [hf _ x y h1, ih (i + 1) ys2 h2]

/-- `mapIter`'s errors do not mention the accumulator, so the accumulator
shifts out. -/
theorem mapIter_done (f : Matcher) (path : String) :
    ∀ (todo : List (String × Val)) (done : List (String × Val)),
      mapIter f path done todo =
        (mapIter f path [] todo).map (fun out => done ++ out) := by
  intro todo
  induction todo with
  | nil => intro done; simp [mapIter, Except.map]
  | cons p rest ih =>
    obtain ⟨k, v⟩ := p
    intro done
    cases h1 : f (path ++ "." ++ k) v with
    | error e => simp [mapIter, h1, Except.map]
    | ok v2 =>
      simp only [mapIter, h1, List.nil_append]
      rw [ih (done ++ [(k, v2)]), ih [(k, v2)]]
      cases h2 : mapIter f path [] rest with
      | error e => simp [h2, Except.map]
      | ok out => simp [h2, Except.map]

theorem mapIter_keys (f : Matcher) (path : String) :
    ∀ (todo out : List (String × Val)),
      mapIter f path [] todo = .ok out →
      out.map Prod.fst = todo.map Prod.fst := by
  intro todo
  induction todo with
  | nil =>
    intro out h
    simp only [mapIter] at h
    cases h
    rfl
  | cons p rest ih =>
    obtain ⟨k, v⟩ := p
    intro out h
    cases h1 : f (path ++ "." ++ k) v with
    | error e => simp only [mapIter, h1] at h; cases h
    | ok v2 =>
      simp only [mapIter, h1, List.nil_append,
        mapIter_done f path rest [(k, v2)]] at h
      cases h2 : mapIter f path [] rest with
      | error e => rw [h2] at h; cases h
      | ok out2 =>
        rw [h2] at h
        simp only [Except.map] at h
        cases h
        simp [ih out2 h2]

theorem mapIter_idem (f : Matcher)
    (hf : ∀ p a b, f p a = .ok b → f p b = .ok b) (path : String) :
    ∀ (todo out : List (String × Val)),
      mapIter f path [] todo = .ok out → mapIter f path [] out = .ok out := by
  intro todo
  induction todo with
  | nil =>
    intro out h
    simp only [mapIter] at h
    cases h
    rfl
  | cons p rest ih =>
    obtain ⟨k, v⟩ := p
    intro out h
    cases h1 : f (path ++ "." ++ k) v with
    | error e => simp only [mapIter, h1] at h; cases h
    | ok v2 =>
      simp only [mapIter, h1, List.nil_append,
        mapIter_done f path rest [(k, v2)]] at h
      cases h2 : mapIter f path [] rest with
      | error e => rw [h2] at h; cases h
      | ok out2 =>
        rw [h2] at h
        simp only [Except.map] at h
        cases h
        have hidem := hf _ v v2 h1
        simp only [mapIter, hidem, List.append_eq, List.nil_append]
        rw [mapIter_done f path out2 [(k, v2)], ih out2 h2]
        rfl

/-- The success content of `dictPhase2` with an empty accumulator. -/
def dictPhase2Ok (tbl : List (String × Matcher)) (path : String) :
    List (String × Val) → Option (List (String × Val))
  | [] => some []
  | (k, v) :: rest =>
    match flook k tbl with
    | none => none
    | some f =>
      match f (path ++ "." ++ k) v with
      | .error _ => none
      | .ok v2 =>
        match dictPhase2Ok tbl path rest with
        | none => none
        | some out => some ((k, v2) :: out)

theorem dictPhase2_ok_iff (tbl : List (String × Matcher)) (path : String) :
    ∀ (todo done r : List (String × Val)),
      dictPhase2 tbl path done todo = .ok r ↔
        ∃ out, dictPhase2Ok tbl path todo = some out ∧ r = done ++ out := by
  intro todo
  induction todo with
  | nil =>
    intro done r
    simp only [dictPhase2, dictPhase2Ok]
    constructor
    · intro h; cases h; exact ⟨[], rfl, by simp⟩
    · rintro ⟨out, hout, rfl⟩
      cases hout
      simp
  | cons p rest ih =>
    obtain ⟨k, v⟩ := p
    intro done r
    cases hl : flook k tbl with
    | none => simp [dictPhase2, dictPhase2Ok, hl]
    | some f =>
      cases h1 : f (path ++ "." ++ k) v with
      | error e => simp [dictPhase2, dictPhase2Ok, hl, h1]
      | ok v2 =>
        simp only [dictPhase2, dictPhase2Ok, hl, h1]
        rw [ih (done ++ [(k, v2)]) r]
        constructor
        · rintro ⟨out, hout, rfl⟩
          exact ⟨(k, v2) :: out, by simp [hout], by simp⟩
        · rintro ⟨out, hout, rfl⟩
          cases h2 : dictPhase2Ok tbl path rest with
          | none => rw [h2] at hout; cases hout
          | some out2 =>
            rw [h2] at hout
            cases hout
            exact ⟨out2, rfl, by simp⟩

theorem dictPhase2Ok_keys (tbl : List (String × Matcher)) (path : String) :
    ∀ (todo out : List (String × Val)),
      dictPhase2Ok tbl path todo = some out →
      out.map Prod.fst = todo.map Prod.fst := by
  intro todo
  induction todo with
  | nil => intro out h; cases h; rfl
  | cons p rest ih =>
    obtain ⟨k, v⟩ := p
    intro out h
    cases hl : flook k tbl with
    | none => simp only [dictPhase2Ok, hl] at h; cases h
    | some f =>
      cases h1 : f (path ++ "." ++ k) v with
      | error e => simp only [dictPhase2Ok, hl, h1] at h; cases h
      | ok v2 =>
        simp only [dictPhase2Ok, hl, h1] at h
        cases h2 : dictPhase2Ok tbl path rest with
        | none => rw [h2] at h; cases h
        | some out2 =>
          rw [h2] at h
          cases h
          simp [ih out2 h2]

theorem dictPhase2Ok_idem (tbl : List (String × Matcher)) (path : String)
    (htb : ∀ k f, flook k tbl = some f →
      ∀ p a b, f p a = .ok b → f p b = .ok b) :
    ∀ (todo out : List (String × Val)),
      dictPhase2Ok tbl path todo = some out →
      dictPhase2Ok tbl path out = some out := by
  intro todo
  induction todo with
  | nil => intro out h; cases h; rfl
  | cons p rest ih =>
    obtain ⟨k, v⟩ := p
    intro out h
    cases hl : flook k tbl with
    | none => simp only [dictPhase2Ok, hl] at h; cases h
    | some f =>
      cases h1 : f (path ++ "." ++ k) v with
      | error e => simp only [dictPhase2Ok, hl, h1] at h; cases h
      | ok v2 =>
        simp only [dictPhase2Ok, hl, h1] at h
        cases h2 : dictPhase2Ok tbl path rest with
        | none => rw [h2] at h; cases h
        | some out2 =>
          rw [h2] at h
          cases h
          have hidem := htb k f hl _ v v2 h1
          simp only [dictPhase2Ok, hl, hidem, ih out2 h2]

/-- Key membership among a `Dict`'s declared kids. -/
def kidHasKey (k : String) : List (String × Ty) → Bool
  | [] => false
  | (k2, _) :: rest => k = k2 || kidHasKey k rest

mutual
/-- The sanity conditions under which validation is idempotent, holding
recursively over a compiled type: kid names are unique (they come from a
mapping in the spec file, whose loader rejects duplicates), and no kid is
simultaneously `forbidden` and carrying a non-null `default` (the
combination the counterexample to the claim exploits). -/
def tyWf : Ty → Bool
  | .scalar _ _ _ _ => true
  | .list _ spec _ => tyWf spec
  | .set _ spec _ => tyWf spec
  | .dict _ kids _ => kidsWf kids
  | .map _ spec (some nt) _ => tyWf spec && tyWf nt
  | .map _ spec none _ => tyWf spec
def kidsWf : List (String × Ty) → Bool
  | [] => true
  | (k, t) :: rest =>
    !((tyAttrs t).forbidden && (tyAttrs t).default.isSome) &&
      !kidHasKey k rest && tyWf t && kidsWf rest
end

theorem hasKey_congr (k : String) (m1 m2 : List (String × Val))
    (h : m1.map Prod.fst = m2.map Prod.fst) : hasKey k m1 = hasKey k m2 := by
  rw [hasKey_iff_contains, hasKey_iff_contains, h]

theorem hasKey_append (k : String) (m1 m2 : List (String × Val)) :
    hasKey k (m1 ++ m2) = (hasKey k m1 || hasKey k m2) := by
  induction m1 with
  | nil => simp [hasKey]
  | cons p rest ih =>
    obtain ⟨k2, v⟩ := p
    simp [hasKey, ih, Bool.or_assoc]

theorem dictPhase1_extends (path : String) :
    ∀ (kids : List (String × Ty)) (val val1 : List (String × Val)),
      dictPhase1 path tyAttrs kids val = .ok val1 →
      ∃ extra, val1 = val ++ extra ∧
        ∀ k2, hasKey k2 extra = true → kidHasKey k2 kids = true := by
  intro kids
  induction kids with
  | nil =>
    intro val val1 h
    simp only [dictPhase1] at h
    cases h
    exact ⟨[], by simp, by intro k2 hk; simp [hasKey] at hk⟩
  | cons p rest ih =>
    obtain ⟨k, s⟩ := p
    intro val val1 h
    simp only [dictPhase1] at h
    by_cases hc1 : ((tyAttrs s).required && !hasKey k val) = true
    · rw [if_pos hc1] at h; cases h
    · rw [if_neg hc1] at h
      by_cases hc2 : ((tyAttrs s).forbidden && hasKey k val) = true
      · rw [if_pos hc2] at h; cases h
      · rw [if_neg hc2] at h
        cases hd : (tyAttrs s).default with
        | none =>
          simp only [hd] at h
          obtain ⟨extra, hval, hkeys⟩ := ih val val1 h
          exact ⟨extra, hval, fun k2 hk2 => by
            simp [kidHasKey, hkeys k2 hk2]⟩
        | some d =>
          simp only [hd] at h
          by_cases hk : hasKey k val = true
          · rw [if_pos hk] at h
            obtain ⟨extra, hval, hkeys⟩ := ih val val1 h
            exact ⟨extra, hval, fun k2 hk2 => by
              simp [kidHasKey, hkeys k2 hk2]⟩
          · rw [if_neg hk] at h
            obtain ⟨extra, hval, hkeys⟩ := ih (val ++ [(k, d)]) val1 h
            refine ⟨(k, d) :: extra, by simpa using hval, ?_⟩
            intro k2 hk2
            simp only [hasKey, Bool.or_eq_true, decide_eq_true_eq] at hk2
            rcases hk2 with rfl | hk2
            · simp [kidHasKey]
            · simp [kidHasKey, hkeys k2 hk2]

theorem dictPhase1_rerun (path : String) :
    ∀ (kids : List (String × Ty)) (val val1 w : List (String × Val)),
      dictPhase1 path tyAttrs kids val = .ok val1 →
      w.map Prod.fst = val1.map Prod.fst →
      kidsWf kids = true →
      dictPhase1 path tyAttrs kids w = .ok w := by
  intro kids
  induction kids with
  | nil => intro val val1 w _ _ _; rfl
  | cons p rest ih =>
    obtain ⟨k, s⟩ := p
    intro val val1 w h hkeys hwf
    simp only [kidsWf, Bool.and_eq_true, Bool.not_eq_true',
      Bool.and_eq_false_iff] at hwf
    obtain ⟨⟨⟨hnofd, hnodup⟩, _⟩, hwfrest⟩ := hwf
    simp only [dictPhase1] at h
    by_cases hc1 : ((tyAttrs s).required && !hasKey k val) = true
    · rw [if_pos hc1] at h; cases h
    · rw [if_neg hc1] at h
      by_cases hc2 : ((tyAttrs s).forbidden && hasKey k val) = true
      · rw [if_pos hc2] at h; cases h
      · rw [if_neg hc2] at h
        -- the (possibly default-injected) map the rest of the pass ran on
        have hrest : ∃ val2, dictPhase1 path tyAttrs rest val2 = .ok val1 ∧
            (hasKey k val = true → hasKey k val2 = true) ∧
            ((tyAttrs s).default.isSome = true → hasKey k val2 = true) ∧
            (hasKey k val2 = true → hasKey k val = true ∨
              (tyAttrs s).default.isSome = true) := by
          cases hd : (tyAttrs s).default with
          | none =>
            simp only [hd] at h
            exact ⟨val, h, fun hh => hh, by simp, fun hh => Or.inl hh⟩
          | some d =>
            simp only [hd] at h
            by_cases hk : hasKey k val = true
            · rw [if_pos hk] at h
              exact ⟨val, h, fun hh => hh, fun _ => hk, fun hh => Or.inl hh⟩
            · rw [if_neg hk] at h
              refine ⟨val ++ [(k, d)], h, ?_, ?_, ?_⟩
              · intro hh; rw [hasKey_append, hh]; rfl
              · intro _; rw [hasKey_append]; simp [hasKey]
              · intro _; exact Or.inr rfl
        obtain ⟨val2, h2, hmono, hdef, hback⟩ := hrest
        obtain ⟨extra, hval1, hextra⟩ := dictPhase1_extends path rest val2 val1 h2
        -- key presence in the final map
        have hval1k : ∀ k2, hasKey k2 val2 = true → hasKey k2 val1 = true := by
          intro k2 hk2
          rw [hval1, hasKey_append, hk2]
          rfl
        have hwk : hasKey k w = hasKey k val1 := hasKey_congr k w val1 hkeys
        simp only [dictPhase1]
        -- required: if it held, the key was present and stays present
        have hreq : ((tyAttrs s).required && !hasKey k w) = false := by
          by_cases hr : (tyAttrs s).required = true
          · have hkv : hasKey k val = true := by
              by_contra hkv
              simp only [Bool.not_eq_true] at hkv
              rw [hr, hkv] at hc1
              exact hc1 rfl
            rw [hwk, hval1k k (hmono hkv)]
            simp
          · have hrf : (tyAttrs s).required = false := by
              cases hre : (tyAttrs s).required
              · rfl
              · exact absurd hre hr
            simp [hrf]
        -- forbidden: if it held, the key was absent, is not injected
        -- (no forbidden-with-default), and no other kid injects it (unique
        -- kid names)
        have hforb : ((tyAttrs s).forbidden && hasKey k w) = false := by
          by_cases hf : (tyAttrs s).forbidden = true
          · have hkv : hasKey k val = false := by
              by_contra hkv
              simp only [Bool.not_eq_false] at hkv
              rw [hf, hkv] at hc2
              exact hc2 rfl
            have hnd : (tyAttrs s).default.isSome = false := by
              rcases hnofd with hh | hh
              · rw [hf] at hh; cases hh
              · exact hh
            have hk2 : hasKey k val2 = false := by
              by_contra hh
              simp only [Bool.not_eq_false] at hh
              rcases hback hh with hh2 | hh2
              · rw [hh2] at hkv; cases hkv
              · rw [hh2] at hnd; cases hnd
            have hkextra : hasKey k extra = false := by
              by_contra hh
              simp only [Bool.not_eq_false] at hh
              rw [hextra k hh] at hnodup
              cases hnodup
            rw [hwk, hval1, hasKey_append, hk2, hkextra]
            simp
          · have hff : (tyAttrs s).forbidden = false := by
              cases hfe : (tyAttrs s).forbidden
              · rfl
              · exact absurd hfe hf
            simp [hff]
        rw [if_neg (by rw [hreq]; exact Bool.false_ne_true),
          if_neg (by rw [hforb]; exact Bool.false_ne_true)]
        -- the default is never injected again
        have hstep : (match (tyAttrs s).default with
            | some d => if hasKey k w then w else w ++ [(k, d)]
            | none => w) = w := by
          cases hd : (tyAttrs s).default with
          | none => rfl
          | some d =>
            show (if hasKey k w then w else w ++ [(k, d)]) = w
            have hkw : hasKey k w = true := by
              rw [hwk]
              exact hval1k k (hdef (by rw [hd]; rfl))
            rw [if_pos hkw]
        rw [hstep]
        exact ih val2 val1 w h2 hkeys hwfrest

theorem ensure_type_vmap_ok (mnull : Bool) (path : String)
    (kvs : List (String × Val)) :
    ensure_type mnull .dict path (.vmap kvs) = .ok () := by
  cases mnull <;> rfl

mutual
theorem tyMatchF_idem (t : Ty) (hwf : tyWf t = true) :
    ∀ (path : String) (v v2 : Val),
      tyMatchF t path v = .ok v2 → tyMatchF t path v2 = .ok v2 := by
  cases t with
  | scalar nm kind values attrs =>
    intro path v v2 h
    simp only [tyMatchF] at h
    cases he : ensure_type attrs.maybenull kind path v with
    | error e => simp only [he] at h; cases h
    | ok u =>
      simp only [he] at h
      cases hv : ensure_values values path v with
      | error e => simp only [hv] at h; cases h
      | ok u2 =>
        simp only [hv] at h
        cases h
        simp only [tyMatchF, he, hv]
  | list nm spec attrs =>
    intro path v v2 h
    simp only [tyWf] at hwf
    simp only [tyMatchF] at h
    cases he : ensure_type attrs.maybenull .list path v with
    | error e => simp only [he] at h; cases h
    | ok u =>
      simp only [he] at h
      cases v with
      | vlist xs =>
        cases hi : listIterF (tyMatchF spec) path 0 xs with
        | error e => simp only [hi] at h; cases h
        | ok ys =>
          simp only [hi] at h
          cases h
          have hidem := listIterF_idem (tyMatchF spec)
            (fun p a b hab => tyMatchF_idem spec hwf p a b hab) path 0 xs ys hi
          simp only [tyMatchF, ensure_type_vlist_ok, hidem]
      | vnull => cases h
      | vstr s2 => cases h
      | vint n => cases h
      | vbool b => cases h
      | vmap kvs => cases h
  | set nm spec attrs =>
    intro path v v2 h
    simp only [tyWf] at hwf
    simp only [tyMatchF] at h
    cases he : ensure_type attrs.maybenull .list path v with
    | error e => simp only [he] at h; cases h
    | ok u =>
      simp only [he] at h
      cases v with
      | vlist xs =>
        cases hi : listIterF (tyMatchF spec) path 0 xs with
        | error e => simp only [hi] at h; cases h
        | ok ys =>
          simp only [hi] at h
          cases hu : setUniq path ys with
          | error e => simp only [hu] at h; cases h
          | ok u2 =>
            simp only [hu] at h
            cases h
            have hidem := listIterF_idem (tyMatchF spec)
              (fun p a b hab => tyMatchF_idem spec hwf p a b hab) path 0 xs ys hi
            simp only [tyMatchF, ensure_type_vlist_ok, hidem, hu]
      | vnull => cases h
      | vstr s2 => cases h
      | vint n => cases h
      | vbool b => cases h
      | vmap kvs => cases h
  | dict nm kids attrs =>
    intro path v v2 h
    simp only [tyWf] at hwf
    simp only [tyMatchF] at h
    cases he : ensure_type attrs.maybenull .dict path v with
    | error e => simp only [he] at h; cases h
    | ok u =>
      simp only [he] at h
      cases v with
      | vmap kvs =>
        cases hp1 : dictPhase1 path tyAttrs kids kvs with
        | error e => simp only [hp1] at h; cases h
        | ok kvs1 =>
          simp only [hp1] at h
          cases hp2 : dictPhase2 (kidFs kids) path [] kvs1 with
          | error e => simp only [hp2] at h; cases h
          | ok kvs2 =>
            simp only [hp2] at h
            cases h
            obtain ⟨out, hout, hr⟩ :=
              (dictPhase2_ok_iff (kidFs kids) path kvs1 [] kvs2).mp hp2
            have hout2 : out = kvs2 := by simpa using hr.symm
            subst hout2
            have hkeys : out.map Prod.fst = kvs1.map Prod.fst :=
              dictPhase2Ok_keys (kidFs kids) path kvs1 out hout
            have htb := kidFs_idem kids hwf
            have hidem2 := dictPhase2Ok_idem (kidFs kids) path htb kvs1 out hout
            have hrerun := dictPhase1_rerun path kids kvs kvs1 out hp1 hkeys hwf
            simp only [tyMatchF, ensure_type_vmap_ok, hrerun]
            rw [(dictPhase2_ok_iff (kidFs kids) path out [] out).mpr
              ⟨out, hidem2, by simp⟩]
      | vnull => cases h
      | vstr s2 => cases h
      | vint n => cases h
      | vbool b => cases h
      | vlist xs => cases h
  | map nm spec nt attrs =>
    cases nt with
    | some ntt =>
      intro path v v2 h
      simp only [tyWf, Bool.and_eq_true] at hwf
      obtain ⟨hwfs, hwfn⟩ := hwf
      simp only [tyMatchF] at h
      cases he : ensure_type attrs.maybenull .dict path v with
      | error e => simp only [he] at h; cases h
      | ok u =>
        simp only [he] at h
        cases v with
        | vmap kvs =>
          cases hn : setMatchKeys (tyMatchF ntt) (nm ++ "_names")
              (kvs.map (fun p => Val.vstr p.1)) with
          | error e => simp only [hn] at h; cases h
          | ok u2 =>
            simp only [hn] at h
            cases hi : mapIter (tyMatchF spec) path [] kvs with
            | error e => simp only [hi] at h; cases h
            | ok kvs2 =>
              simp only [hi] at h
              cases h
              have hkeys := mapIter_keys (tyMatchF spec) path kvs kvs2 hi
              have hkeys2 : kvs2.map (fun p => Val.vstr p.1) =
                  kvs.map (fun p => Val.vstr p.1) := by
                rw [show (fun (p : String × Val) => Val.vstr p.1) =
                    (Val.vstr ∘ Prod.fst) from rfl, ← List.map_map,
                  ← List.map_map, hkeys]
              have hidem := mapIter_idem (tyMatchF spec)
                (fun p a b hab => tyMatchF_idem spec hwfs p a b hab) path
                kvs kvs2 hi
              simp only [tyMatchF, ensure_type_vmap_ok, hkeys2, hn, hidem]
        | vnull => cases h
        | vstr s2 => cases h
        | vint n => cases h
        | vbool b => cases h
        | vlist xs => cases h
    | none =>
      intro path v v2 h
      simp only [tyWf] at hwf
      simp only [tyMatchF] at h
      cases he : ensure_type attrs.maybenull .dict path v with
      | error e => simp only [he] at h; cases h
      | ok u =>
        simp only [he] at h
        cases v with
        | vmap kvs =>
          cases hi : mapIter (tyMatchF spec) path [] kvs with
          | error e => simp only [hi] at h; cases h
          | ok kvs2 =>
            simp only [hi] at h
            cases h
            have hidem := mapIter_idem (tyMatchF spec)
              (fun p a b hab => tyMatchF_idem spec hwf p a b hab) path
              kvs kvs2 hi
            simp only [tyMatchF, ensure_type_vmap_ok, hidem]
        | vnull => cases h
        | vstr s2 => cases h
        | vint n => cases h
        | vbool b => cases h
        | vlist xs => cases h
theorem kidFs_idem (kids : List (String × Ty)) (hwf : kidsWf kids = true) :
    ∀ (k : String) (f : Matcher), flook k (kidFs kids) = some f →
      ∀ (p : String) (a b : Val), f p a = .ok b → f p b = .ok b := by
  cases kids with
  | nil => intro k f hl; simp [kidFs, flook] at hl
  | cons q rest =>
    obtain ⟨k2, t2⟩ := q
    intro k f hl
    simp only [kidsWf, Bool.and_eq_true] at hwf
    obtain ⟨⟨⟨_, _⟩, hwft⟩, hwfrest⟩ := hwf
    simp only [kidFs, flook] at hl
    by_cases he : k = k2
    · rw [if_pos he] at hl
      cases hl
      intro p a b hab
      exact tyMatchF_idem t2 hwft p a b hab
    · rw [if_neg he] at hl
      exact kidFs_idem rest hwfrest k f hl
end

/-- C6 counterexample: a dict kid that is simultaneously `forbidden` and
carries a non-null `default` (nothing in `createType` excludes the
combination).  The first run injects the default and succeeds; re-running on
the result hits the forbidden check and fails — so
validation-with-defaulting is not idempotent as claimed. -/
theorem c6_counterexample :
    tyMatchF (.dict "d" [("k", .scalar "k" .int []
        ⟨false, true, false, some (.vint 5)⟩)] noAttrs) "p" (.vmap []) =
      .ok (.vmap [("k", .vint 5)]) ∧
    tyMatchF (.dict "d" [("k", .scalar "k" .int []
        ⟨false, true, false, some (.vint 5)⟩)] noAttrs) "p"
        (.vmap [("k", .vint 5)]) =
      .error (.yamlError "p" (.vmap [("k", .vint 5)])
        "option k is forbidden") :=
  ⟨rfl, rfl⟩

/-- C6 as amended: validation-with-defaulting is idempotent for every
compiled type in which no dict field spec combines `forbidden` with a
non-null `default` (and field names are unique, as any `kids` mapping
yields): if `match` succeeds, returning the default-filled tree, running it
again on that tree succeeds and returns it unchanged. -/
theorem c6_match_idempotent (t : Ty) (path : String) (v v2 : Val)
    (hwf : tyWf t = true) (h : tyMatchF t path v = .ok v2) :
    tyMatchF t path v2 = .ok v2 :=
  tyMatchF_idem t hwf path v v2 h

/-- Witness for the amended C6: a dict with a defaulted field, starting from
an empty mapping; the first run injects `fast`, the second run leaves the
result untouched. -/
theorem c6_match_idempotent_witness :
    tyMatchF (.dict "d" [("speed", .scalar "speed" .str
        [.vstr "fast", .vstr "slow"] ⟨false, false, false, some (.vstr "fast")⟩)]
        noAttrs) "p" (.vmap [("speed", .vstr "fast")]) =
      .ok (.vmap [("speed", .vstr "fast")]) :=
  c6_match_idempotent
    (.dict "d" [("speed", .scalar "speed" .str [.vstr "fast", .vstr "slow"]
      ⟨false, false, false, some (.vstr "fast")⟩)] noAttrs)
    "p" (.vmap []) (.vmap [("speed", .vstr "fast")]) rfl rfl
